import Mathlib

/-!
# logid gesture dispatch: direction classifier and `GestureAction`

A shallow embedding of `src/logid/actions/GestureAction.cpp`:

* the direction classifier `toDirection(int16_t, int16_t)` and the name mapping
  `toDirection(std::string)` / `fromDirection`;
* the state machine `press` / `move` / `release` of `GestureAction`, as functions on an
  explicit state that also return the sequence of calls made on the bound gestures.

Machine integers are `Int`; a conversion to `int16_t` is the explicit `toInt16`.
A `std::string` is a `List Char`.
-/

namespace logid
namespace actions

/-! ## Directions and machine integers -/

/-- The symbolic directions of `GestureAction::Direction`. -/
inductive Direction where
  | Up
  | Down
  | Left
  | Right
  | None
  deriving DecidableEq, Repr, Fintype

/-- Modelled from the spec: the declaration of the enumeration (`GestureAction.h`) is not
among the sources. The spec gives its order as `Up, Down, Left, Right, None`; this is the
order in which the sorted map `_gestures` is iterated. -/
def Direction.order : List Direction :=
  [Direction.Up, Direction.Down, Direction.Left, Direction.Right, Direction.None]

/-- The values of an `int16_t`. -/
def isInt16 (v : Int) : Prop := -32768 ≤ v ∧ v ≤ 32767

instance (v : Int) : Decidable (isInt16 v) := by
  unfold isInt16
  infer_instance

/-- Conversion of an `int` to `int16_t` (two's complement wrap-around), as it happens when
an `int` expression is passed to `Gesture::move(int16_t)` or stored in `_x` / `_y`. -/
def toInt16 (v : Int) : Int := (v + 32768) % 65536 - 32768

/-! ## The classifier -/

/-- The classifier `GestureAction::toDirection(int16_t x, int16_t y)`. The operands are
promoted to `int` before `-x` and `-y` are computed, so on 16-bit arguments the negations
are exact and `Int` arithmetic is the arithmetic of the code. -/
def toDirection (x y : Int) : Direction :=
  if x ≥ 0 ∧ y ≥ 0 then
    (if x ≥ y then Direction.Right else Direction.Down)
  else if x < 0 ∧ y ≥ 0 then
    (if -x ≤ y then Direction.Down else Direction.Left)
  else if x ≤ 0 ∧ y < 0 then
    (if x ≤ y then Direction.Left else Direction.Up)
  else
    (if x ≤ -y then Direction.Up else Direction.Right)

/-! ## Direction names -/

/-- The failures raised by the code: `std::invalid_argument`, `InvalidGesture`, and the
`std::bad_optional_access` of `std::optional::value()` on an empty optional. -/
inductive Failure where
  | invalid_argument
  | InvalidGesture
  | bad_optional_access
  deriving DecidableEq, Repr

deriving instance DecidableEq for Except

/-- The parser `GestureAction::toDirection(std::string)`: the argument is lower-cased
character by character (`::tolower`, ASCII) and compared with the five names; any other
string raises `std::invalid_argument`. -/
def toDirectionName (direction : List Char) : Except Failure Direction :=
  let direction := direction.map Char.toLower
  if direction = ['u', 'p'] then Except.ok Direction.Up
  else if direction = ['d', 'o', 'w', 'n'] then Except.ok Direction.Down
  else if direction = ['l', 'e', 'f', 't'] then Except.ok Direction.Left
  else if direction = ['r', 'i', 'g', 'h', 't'] then Except.ok Direction.Right
  else if direction = ['n', 'o', 'n', 'e'] then Except.ok Direction.None
  else Except.error Failure.invalid_argument

/-- The printer `GestureAction::fromDirection`. The `switch` covers the five enumerators;
the `throw InvalidGesture()` behind it is reached only by a value outside the enumeration,
which `Direction` does not have. -/
def fromDirection (direction : Direction) : Except Failure (List Char) :=
  match direction with
  | Direction.Up => Except.ok ['u', 'p']
  | Direction.Down => Except.ok ['d', 'o', 'w', 'n']
  | Direction.Left => Except.ok ['l', 'e', 'f', 't']
  | Direction.Right => Except.ok ['r', 'i', 'g', 'h', 't']
  | Direction.None => Except.ok ['n', 'o', 'n', 'e']

/-- Upper-cases the characters of a string at the positions selected by `mask`. -/
def upperCaseAt (mask : Nat → Bool) : List Char → List Char
  | [] => []
  | c :: cs => (if mask 0 then c.toUpper else c) :: upperCaseAt (fun i => mask (i + 1)) cs

/-! ## Gestures -/

/-- The abstract class `Gesture` (`Gesture.h`): the virtual methods of a gesture object
whose state has type `γ`. `metThreshold` and `wheelCompatibility` are `const`. -/
structure Gesture (γ : Type) where
  press : Bool → γ → γ
  release : Bool → γ → γ
  move : Int → γ → γ
  wheelCompatibility : γ → Bool
  metThreshold : γ → Bool

/-- A call made on a gesture object, with its argument. `press()` is `press(false)` and
`release()` is `release(false)`, by the default arguments declared in `Gesture.h`. -/
inductive Call where
  | press (init_threshold : Bool)
  | release (primary : Bool)
  | move (axis : Int)
  deriving DecidableEq, Repr

/-- A call together with the key of the map entry whose gesture receives it. -/
abbrev Event := Direction × Call

/-- The map `_gestures` from directions to shared pointers: `none` is a key without entry,
`some none` an entry holding a null pointer, `some (some g)` an entry holding the gesture
object with state `g`. -/
abbrev GestureMap (γ : Type) := Direction → Option (Option γ)

/-- Modelled from the spec: the class declaration (`GestureAction.h`) is not among the
sources. The state is what the methods read and write: the pressed flag, the signed 16-bit
cumulative offset `(_x, _y)` and the map `_gestures`; the mutex is not part of it. -/
structure GestureAction (γ : Type) where
  _pressed : Bool
  _x : Int
  _y : Int
  _gestures : GestureMap γ

/-- No entry of the map holds a null pointer. -/
def GestureMap.NoNull {γ : Type} (m : GestureMap γ) : Prop := ∀ d, m d ≠ some none

instance {γ : Type} [DecidableEq γ] (m : GestureMap γ) : Decidable m.NoNull := by
  unfold GestureMap.NoNull
  infer_instance

/-- Direction `d` has an entry that holds a gesture object. -/
def GestureMap.bound {γ : Type} (m : GestureMap γ) (d : Direction) : Bool :=
  match m d with
  | some (some _) => true
  | _ => false

/-- Direction `d` holds a gesture object whose `metThreshold()` is true. -/
def GestureMap.met {γ : Type} (G : Gesture γ) (m : GestureMap γ) (d : Direction) : Bool :=
  match m d with
  | some (some g) => G.metThreshold g
  | _ => false

/-! ## `GestureAction::press` -/

/-- The loop of `press()`: every entry of the map, in key order, receives `press()`.
Dereferencing a null entry is undefined behaviour, rendered as `none`. -/
def pressLoop {γ : Type} (G : Gesture γ) :
    List Direction → GestureMap γ → List Event → Option (GestureMap γ × List Event)
  | [], m, log => some (m, log)
  | e :: rest, m, log =>
    match m e with
    | none => pressLoop G rest m log
    | some none => none
    | some (some g) =>
      pressLoop G rest (Function.update m e (some (some (G.press false g))))
        (log ++ [(e, Call.press false)])

/-- The method `GestureAction::press()`: the new state and the calls made, in order. -/
def GestureAction.press {γ : Type} (G : Gesture γ) (s : GestureAction γ) :
    Option (GestureAction γ × List Event) :=
  match pressLoop G Direction.order s._gestures [] with
  | none => none
  | some (m, log) => some ({ _pressed := true, _x := 0, _y := 0, _gestures := m }, log)

/-! ## `GestureAction::release` -/

/-- The loop of `release()` over the entries of the map in key order, for the primary
direction `d`. The accumulator is the map, the flag `threshold_met` and the calls made so
far. The entry `d` is skipped; while the flag is false an entry whose `metThreshold()` is
true is released with `true` and ends the loop (`break`), an entry whose `metThreshold()` is
false receives no call; once the flag is true every entry is released with `false`. -/
def releaseLoop {γ : Type} (G : Gesture γ) (d : Direction) :
    List Direction → GestureMap γ → Bool → List Event →
      Option (GestureMap γ × Bool × List Event)
  | [], m, threshold_met, log => some (m, threshold_met, log)
  | e :: rest, m, threshold_met, log =>
    match m e with
    | none => releaseLoop G d rest m threshold_met log
    | some p =>
      if e = d then releaseLoop G d rest m threshold_met log
      else if threshold_met = false then
        match p with
        | none => none
        | some g =>
          if G.metThreshold g then
            some (Function.update m e (some (some (G.release true g))), true,
              log ++ [(e, Call.release true)])
          else releaseLoop G d rest m threshold_met log
      else
        match p with
        | none => none
        | some g =>
          releaseLoop G d rest (Function.update m e (some (some (G.release false g))))
            threshold_met (log ++ [(e, Call.release false)])

/-- Lines 123-128 of `release()`: the gesture of the primary direction, when it has an
entry, is asked for `metThreshold()` and then released with `true`. -/
def releasePrimary {γ : Type} (G : Gesture γ) (d : Direction) (m : GestureMap γ) :
    Option (GestureMap γ × Bool × List Event) :=
  match m d with
  | none => some (m, false, [])
  | some none => none
  | some (some g) =>
    some (Function.update m d (some (some (G.release true g))), G.metThreshold g,
      [(d, Call.release true)])

/-- Lines 146-154 of `release()`: when no threshold was met, the gesture of `None`, if it
has a non-null entry, receives `press()` and then `release()`. -/
def releaseNone {γ : Type} (G : Gesture γ) (m : GestureMap γ) (threshold_met : Bool)
    (log : List Event) : GestureMap γ × List Event :=
  if threshold_met = false then
    match m Direction.None with
    | some (some g) =>
      (Function.update m Direction.None (some (some (G.release false (G.press false g)))),
        log ++ [(Direction.None, Call.press false), (Direction.None, Call.release false)])
    | _ => (m, log)
  else (m, log)

/-- The method `GestureAction::release()`: the new state and the calls made, in order;
`none` when a null entry is dereferenced. `_x` and `_y` are left as they are. -/
def GestureAction.release {γ : Type} (G : Gesture γ) (s : GestureAction γ) :
    Option (GestureAction γ × List Event) :=
  let d := toDirection s._x s._y
  match releasePrimary G d s._gestures with
  | none => none
  | some (m1, met1, log1) =>
    match releaseLoop G d Direction.order m1 met1 log1 with
    | none => none
    | some (m2, met2, log2) =>
      let r := releaseNone G m2 met2 log2
      some ({ _pressed := false, _x := s._x, _y := s._y, _gestures := r.1 }, r.2)

/-! ## `GestureAction::move` -/

/-- The pattern `auto it = _gestures.find(d); if(it != end && it->second) it->second->move(v)`
of `move`: the gesture of `d`, if it has a non-null entry, receives `move` with `v`
converted to `int16_t`. -/
def deliver {γ : Type} (G : Gesture γ) (r : GestureMap γ × List Event) (d : Direction)
    (v : Int) : GestureMap γ × List Event :=
  match r.1 d with
  | some (some g) =>
    (Function.update r.1 d (some (some (G.move (toInt16 v) g))),
      r.2 ++ [(d, Call.move (toInt16 v))])
  | _ => r

/-- The horizontal block of `move` (lines 163-191), for the old value `_x`, the increment
`x` and `new_x = _x + x` computed in `int`. -/
def moveX {γ : Type} (G : Gesture γ) (_x x : Int) (r : GestureMap γ × List Event) :
    GestureMap γ × List Event :=
  let new_x := _x + x
  if Int.natAbs x > 0 then
    if _x < 0 ∧ new_x ≥ 0 then
      let r1 := deliver G r Direction.Left _x
      if new_x ≠ 0 then deliver G r1 Direction.Right new_x else r1
    else if _x > 0 ∧ new_x ≤ 0 then
      let r1 := deliver G r Direction.Right (-_x)
      if new_x ≠ 0 then deliver G r1 Direction.Left (-new_x) else r1
    else if new_x < 0 then deliver G r Direction.Left (-x)
    else if new_x > 0 then deliver G r Direction.Right x
    else r
  else r

/-- The vertical block of `move` (lines 193-221), for the old value `_y`, the increment
`y` and `new_y = _y + y` computed in `int`. -/
def moveY {γ : Type} (G : Gesture γ) (_y y : Int) (r : GestureMap γ × List Event) :
    GestureMap γ × List Event :=
  let new_y := _y + y
  if Int.natAbs y > 0 then
    if _y > 0 ∧ new_y ≤ 0 then
      let r1 := deliver G r Direction.Up _y
      if new_y ≠ 0 then deliver G r1 Direction.Down new_y else r1
    else if _y < 0 ∧ new_y ≥ 0 then
      let r1 := deliver G r Direction.Down (-_y)
      if new_y ≠ 0 then deliver G r1 Direction.Up (-new_y) else r1
    else if new_y < 0 then deliver G r Direction.Up (-y)
    else if new_y > 0 then deliver G r Direction.Down y
    else r
  else r

/-- The method `GestureAction::move(int16_t x, int16_t y)`: the new state and the calls
made, in order. The sums are stored back into the 16-bit members. -/
def GestureAction.move {γ : Type} (G : Gesture γ) (s : GestureAction γ) (x y : Int) :
    GestureAction γ × List Event :=
  let r := moveY G s._y y (moveX G s._x x (s._gestures, []))
  ({ _pressed := s._pressed, _x := toInt16 (s._x + x), _y := toInt16 (s._y + y),
     _gestures := r.1 }, r.2)

/-! ## A concrete gesture -/

/-- Modelled from the spec: the implementation of `ReleaseGesture` (`ReleaseGesture.cpp`)
is not among the sources, only its declaration is. The state is the accumulator `_axis`
declared in `ReleaseGesture.h` with the configured threshold; by the spec the threshold is
met when the cumulative travel reaches the configured value, `press` starts the tracking
and `release` resets the accumulated state. The bound sub-action is outside the state. -/
structure ReleaseGesture where
  _axis : Int
  threshold : Int
  deriving DecidableEq, Repr

/-- Modelled from the spec: the methods of `ReleaseGesture` (`ReleaseGesture.cpp` is not
among the sources), as the spec describes a gesture with a cumulative threshold. -/
def ReleaseGesture.methods : Gesture ReleaseGesture where
  press := fun _ g => { g with _axis := 0 }
  release := fun _ g => { g with _axis := 0 }
  move := fun axis g => { g with _axis := toInt16 (g._axis + axis) }
  wheelCompatibility := fun _ => false
  metThreshold := fun g => decide (g._axis ≥ g.threshold)

/-- A fresh `ReleaseGesture` with the threshold 50 of the scenarios. -/
def ReleaseGesture.fresh : ReleaseGesture := { _axis := 0, threshold := 50 }

/-- Bindings with a fresh gesture on each of the four directions and on `None`. -/
def allBound : GestureMap ReleaseGesture := fun _ => some (some ReleaseGesture.fresh)

/-- Bindings with a gesture on `None` only (Scenario C). -/
def onlyNone : GestureMap ReleaseGesture := fun d =>
  if d = Direction.None then some (some ReleaseGesture.fresh) else none

/-- The idle initial state over the given bindings. -/
def GestureAction.init {γ : Type} (m : GestureMap γ) : GestureAction γ :=
  { _pressed := false, _x := 0, _y := 0, _gestures := m }

/-- Bindings with a gesture on every direction, the one on `Down` with threshold 10
(Scenario D). -/
def lowDown : GestureMap ReleaseGesture := fun d =>
  if d = Direction.Down then some (some { _axis := 0, threshold := 10 })
  else some (some ReleaseGesture.fresh)

/-- The state of Scenario A before `release`: pressed at `(60, 0)`, the gesture of `Right`
having accumulated 60. -/
def scenarioA : GestureAction ReleaseGesture :=
  GestureAction.mk true 60 0
    (Function.update allBound Direction.Right (some (some { _axis := 60, threshold := 50 })))

/-- The state of Scenario D before `release`: pressed at `(20, 15)` over `lowDown`, the
gestures of `Right` and `Down` having accumulated 20 and 15. -/
def scenarioD : GestureAction ReleaseGesture :=
  GestureAction.mk true 20 15
    (Function.update
      (Function.update lowDown Direction.Right (some (some { _axis := 20, threshold := 50 })))
      Direction.Down (some (some { _axis := 15, threshold := 10 })))

/-! ## Sequences of callbacks -/

/-- A callback of the control binding. -/
inductive Input where
  | press
  | release
  | move (x y : Int)
  deriving DecidableEq, Repr

/-- One callback: the new state and the calls it made on gestures. -/
def GestureAction.step {γ : Type} (G : Gesture γ) (s : GestureAction γ) :
    Input → Option (GestureAction γ × List Event)
  | Input.press => s.press G
  | Input.release => s.release G
  | Input.move x y => some (s.move G x y)

/-- A sequence of callbacks: the final state and, for each callback, the calls it made. -/
def GestureAction.run {γ : Type} (G : Gesture γ) :
    GestureAction γ → List Input → Option (GestureAction γ × List (List Event))
  | s, [] => some (s, [])
  | s, i :: rest =>
    match s.step G i with
    | none => none
    | some (s1, log) =>
      match GestureAction.run G s1 rest with
      | none => none
      | some (s2, logs) => some (s2, log :: logs)

/-- The calls made by each callback of a sequence. -/
def GestureAction.calls {γ : Type} (G : Gesture γ) (s : GestureAction γ)
    (inputs : List Input) : Option (List (List Event)) :=
  (s.run G inputs).map Prod.snd

/-! ## The gesture factory and the configuration -/

/-- Modelled from the spec: the factory `Gesture::makeGesture` (`Gesture.cpp`) and the type
`config::Gesture` of a direction's configuration subtree (here `κ`) are not among the
sources. By the spec the factory builds a gesture from the configured type, or from an
explicit type name, in which case the configuration entry is rewritten for that type; an
unknown type name fails with `InvalidGesture` and leaves the entry as it was. -/
structure Factory (γ κ : Type) where
  /-- The call `makeGesture(device, config, node)`: a gesture of the configured type. -/
  fromConfig : κ → Except Failure γ
  /-- The call `makeGesture(device, type, config, node)`: a gesture of the named type and
  the rewritten configuration entry. -/
  fromType : List Char → κ → Except Failure (γ × κ)

/-- Modelled from the spec: the map `config::GestureAction::gestures` from names to gesture
configurations (its declaration is not among the sources), as the constructor iterates it:
the list of its entries in iteration order. -/
abbrev ConfigEntries (κ : Type) := List (List Char × κ)

/-- Modelled from the spec: the same map as `setGesture` reads and writes it. For each
direction, the configuration entry that `operator[]` refers to for the name of that
direction (a default-constructed entry when the map had none for the name). -/
abbrev ConfigCells (κ : Type) := Direction → κ

/-! ## `GestureAction::setGesture` -/

/-- What a call of `setGesture` leaves behind: the failure it raised, if any, the state of
the `GestureAction`, the configuration `_config.gestures`, and the calls made on gestures. -/
structure SetGestureResult (γ κ : Type) where
  thrown : Option Failure
  state : GestureAction γ
  config : Option (ConfigCells κ)
  calls : List Event

/-- Lines 239-247 of `setGesture`: when `d` has an entry, the action is pressed (`pressed()`
reads the flag `_pressed`) and the entry is not null, the old gesture is released, as
primary exactly when `d` is the classification of the current offset. -/
def releaseOld {γ : Type} (G : Gesture γ) (s : GestureAction γ) (d : Direction) :
    GestureMap γ × List Event :=
  match s._gestures d with
  | some (some g) =>
    if s._pressed = true then
      (Function.update s._gestures d
          (some (some (G.release (decide (toDirection s._x s._y = d)) g))),
        [(d, Call.release (decide (toDirection s._x s._y = d)))])
    else (s._gestures, [])
  | _ => (s._gestures, [])

/-- The method `GestureAction::setGesture(direction, type)`. The name is parsed first; the
old gesture is released when the action is pressed; the entry is reset to a null pointer;
the factory is asked for a gesture of the new type on the configuration entry
`_config.gestures.value()[dir_name]` (the cell of `d`) and, when it raises
`InvalidGesture`, for one of the configured type, after which `std::invalid_argument` is
raised. Any other failure leaves the entry null. -/
def GestureAction.setGesture {γ κ : Type} (G : Gesture γ) (F : Factory γ κ)
    (s : GestureAction γ) (cfg : Option (ConfigCells κ)) (direction type : List Char) :
    SetGestureResult γ κ :=
  match toDirectionName direction with
  | Except.error f => SetGestureResult.mk (some f) s cfg []
  | Except.ok d =>
    let old := releaseOld G s d
    match fromDirection d with
    | Except.error f =>
      SetGestureResult.mk (some f) (GestureAction.mk s._pressed s._x s._y old.1) cfg old.2
    | Except.ok _ =>
      let m0 := Function.update old.1 d (some none)
      match cfg with
      | none =>
        SetGestureResult.mk (some Failure.bad_optional_access)
          (GestureAction.mk s._pressed s._x s._y m0) none old.2
      | some c =>
        match F.fromType type (c d) with
        | Except.ok (g, k) =>
          SetGestureResult.mk none
            (GestureAction.mk s._pressed s._x s._y (Function.update m0 d (some (some g))))
            (some (Function.update c d k)) old.2
        | Except.error Failure.InvalidGesture =>
          match F.fromConfig (c d) with
          | Except.ok g =>
            SetGestureResult.mk (some Failure.invalid_argument)
              (GestureAction.mk s._pressed s._x s._y (Function.update m0 d (some (some g))))
              (some c) old.2
          | Except.error f =>
            SetGestureResult.mk (some f) (GestureAction.mk s._pressed s._x s._y m0)
              (some c) old.2
        | Except.error f =>
          SetGestureResult.mk (some f) (GestureAction.mk s._pressed s._x s._y m0)
            (some c) old.2

/-! ## The constructor -/

/-- The loop of the constructor over the configured entries: a name that is not a
direction is skipped (the `std::invalid_argument` is caught and logged); for a direction
the factory builds the gesture, and `emplace` binds it unless the direction is bound
already. A failure other than `std::invalid_argument` leaves the constructor. -/
def constructLoop {γ κ : Type} (F : Factory γ κ) :
    List (List Char × κ) → GestureMap γ → Except Failure (GestureMap γ)
  | [], m => Except.ok m
  | (name, k) :: rest, m =>
    match toDirectionName name with
    | Except.error Failure.invalid_argument => constructLoop F rest m
    | Except.error f => Except.error f
    | Except.ok direction =>
      match F.fromConfig k with
      | Except.ok g =>
        match m direction with
        | none => constructLoop F rest (Function.update m direction (some (some g)))
        | some _ => constructLoop F rest m
      | Except.error Failure.invalid_argument => constructLoop F rest m
      | Except.error f => Except.error f

/-- The map `_gestures` built by the constructor `GestureAction::GestureAction` from the
optional `_config.gestures`. -/
def GestureAction.construct {γ κ : Type} (F : Factory γ κ)
    (cfg : Option (ConfigEntries κ)) :
    Except Failure (GestureMap γ) :=
  match cfg with
  | none => Except.ok (fun _ => none)
  | some entries => constructLoop F entries (fun _ => none)

/-- Modelled from the spec: a factory for `ReleaseGesture` (the real one is not among the
sources). A configuration entry is the threshold; the only type name it recognises is
`OnRelease`, for which the entry is rewritten to the default threshold 50; any other
type name fails with `InvalidGesture`. -/
def ReleaseGesture.factory : Factory ReleaseGesture Int where
  fromConfig := fun k => Except.ok { _axis := 0, threshold := k }
  fromType := fun type _ =>
    if type = ['O', 'n', 'R', 'e', 'l', 'e', 'a', 's', 'e'] then
      Except.ok ({ _axis := 0, threshold := 50 }, 50)
    else Except.error Failure.InvalidGesture

/-- A configuration with thresholds for `up`, `right` and `Down` (spelled with a capital)
and an entry whose name is not a direction. -/
def sampleConfig : ConfigEntries Int :=
  [(['D', 'o', 'w', 'n'], 10), (['d', 'i', 'a', 'g'], 5), (['r', 'i', 'g', 'h', 't'], 50),
    (['u', 'p'], 30)]

/-- The configuration entries of the five direction names: the thresholds of
`sampleConfig` for `up`, `down` and `right`, and 50 elsewhere. -/
def sampleCells : ConfigCells Int := fun d =>
  match d with
  | Direction.Up => 30
  | Direction.Down => 10
  | _ => 50

/-- The bindings that the constructor builds from `sampleConfig`. -/
def sampleBindings : GestureMap ReleaseGesture := fun d =>
  match d with
  | Direction.Up => some (some { _axis := 0, threshold := 30 })
  | Direction.Down => some (some { _axis := 0, threshold := 10 })
  | Direction.Right => some (some { _axis := 0, threshold := 50 })
  | _ => none

/-- A state over `sampleBindings` in the middle of a gesture: pressed at `(0, -40)`, the
gesture of `Up` having accumulated 40. -/
def sampleMoved : GestureAction ReleaseGesture :=
  GestureAction.mk true 0 (-40)
    (Function.update sampleBindings Direction.Up (some (some { _axis := 40, threshold := 30 })))

/-- The step from `r` to `r1` makes at most `n` calls, all of them `move` calls on
directions of `S`, keeps the set of bound directions, and changes nothing when no
direction of `S` is bound. -/
def Addresses {γ : Type} (S : List Direction) (n : Nat) (r r1 : GestureMap γ × List Event) :
    Prop :=
  ∃ extra, r1.2 = r.2 ++ extra ∧ extra.length ≤ n ∧
    (∀ ev ∈ extra, ev.1 ∈ S ∧ ∃ v, ev.2 = Call.move v) ∧
    (∀ e, r1.1.bound e = r.1.bound e) ∧
    ((∀ e ∈ S, r.1.bound e = false) → r1 = r)

/-! ## Sequences of moves and delivered extents -/

/-- A sequence of `move` callbacks: the final state and all calls made, in order. -/
def GestureAction.moveAll {γ : Type} (G : Gesture γ) :
    GestureAction γ → List (Int × Int) → GestureAction γ × List Event
  | s, [] => (s, [])
  | s, (x, y) :: rest =>
    let r := s.move G x y
    let r2 := GestureAction.moveAll G r.1 rest
    (r2.1, r.2 ++ r2.2)

/-- The sum of the deltas that the calls of a log deliver to the gesture of `d`. -/
def delivered (d : Direction) : List Event → Int
  | [] => 0
  | (e, Call.move v) :: rest => (if e = d then v else 0) + delivered d rest
  | _ :: rest => delivered d rest

/-- The cumulative horizontal offset of a sequence of increments. -/
def sumX (moves : List (Int × Int)) : Int := (moves.map Prod.fst).sum

/-! ## Quarter turns -/

/-- The clockwise successor of a direction: `Right`, `Down`, `Left`, `Up`, `Right`. -/
def Direction.next : Direction → Direction
  | Direction.Right => Direction.Down
  | Direction.Down => Direction.Left
  | Direction.Left => Direction.Up
  | Direction.Up => Direction.Right
  | Direction.None => Direction.None

/-- The points of the square grid `[-n, n] x [-n, n]` other than the origin. -/
def grid (n : Nat) : Finset (Int × Int) :=
  ((Finset.Icc (-(n : Int)) n) ×ˢ (Finset.Icc (-(n : Int)) n)).erase (0, 0)

/-- The grid points that the classifier maps to `d`. -/
def sector (n : Nat) (d : Direction) : Finset (Int × Int) :=
  (grid n).filter (fun p => toDirection p.1 p.2 = d)

/-! ## `spawn_task` -/

/-- What a unit of work throws: an object of a class derived from `std::exception`, or an
object of any other type. -/
inductive Raised where
  | std_exception (what : String)
  | other (tag : Nat)
  deriving DecidableEq, Repr

/-- How running a function ends: it returns, or it throws. -/
inductive Completion where
  | returned
  | raised (e : Raised)
  deriving DecidableEq, Repr

/-- What a task leaves behind: the arguments with which `ExceptionHandler::Default` was
called, in order; the exception that left the task body and is held by the future, which
nothing reads; and what reaches the caller of `spawn_task`. -/
structure TaskRecord where
  handled : List Raised
  stored : Option Raised
  toCaller : Option Raised
  deriving DecidableEq, Repr

/-- The body of the task of `spawn_task`: `try { function(); } catch (std::exception& e)
{ ExceptionHandler::Default(e); }`, for a function that ends as `f` and a handler that
ends as `handler e` on the exception `e`. The result is the calls of the handler and the
exception that leaves the body. -/
def taskBody (handler : Raised → Completion) (f : Completion) : List Raised × Option Raised :=
  match f with
  | Completion.returned => ([], none)
  | Completion.raised (Raised.std_exception what) =>
    match handler (Raised.std_exception what) with
    | Completion.returned => ([Raised.std_exception what], none)
    | Completion.raised e => ([Raised.std_exception what], some e)
  | Completion.raised e => ([], some e)

/-- The function `logid::spawn_task`: the body runs under `std::async`, which keeps an
exception leaving the body in the shared state of the future; the caller receives
nothing from the task. -/
def spawn_task (handler : Raised → Completion) (f : Completion) : TaskRecord :=
  let r := taskBody handler f
  TaskRecord.mk r.1 r.2 none

/-! ## Theorems: the classifier -/

/-- C1: for every pair of 16-bit signed integers `(x, y)`, the extreme value `-32768`
included, `toDirection x y` is exactly one of `Up`, `Down`, `Left`, `Right` and is never
`None`; the classifier is a total function of `(x, y)` alone. -/
theorem toDirection_never_none (x y : Int) (_hx : isInt16 x) (_hy : isInt16 y) :
    toDirection x y ≠ Direction.None ∧
      ∃! d : Direction, d ∈ [Direction.Up, Direction.Down, Direction.Left, Direction.Right] ∧
        toDirection x y = d := by
  have h : toDirection x y ∈
      [Direction.Up, Direction.Down, Direction.Left, Direction.Right] := by
    unfold toDirection
    split_ifs <;> simp
  refine ⟨?_, toDirection x y, ⟨h, rfl⟩, ?_⟩
  · intro hn
    rw [hn] at h
    simp at h
  · rintro d ⟨_, hd⟩
    exact hd.symm

/-- C1 at the extreme corner `(-32768, -32768)`. -/
theorem toDirection_never_none_witness :
    isInt16 (-32768) ∧ toDirection (-32768) (-32768) ≠ Direction.None ∧
      ∃! d : Direction, d ∈ [Direction.Up, Direction.Down, Direction.Left, Direction.Right] ∧
        toDirection (-32768) (-32768) = d :=
  ⟨by decide, toDirection_never_none (-32768) (-32768) (by decide) (by decide)⟩

/-- C2: the classifier splits the plane into four sectors centred on the axes. For 16-bit
`(x, y)` with `|x| > |y|` the result is `Right` when `x > 0` and `Left` when `x < 0`; with
`|y| > |x|` it is `Down` when `y > 0` and `Up` when `y < 0`. The bounds admit `-32768`. -/
theorem toDirection_sectors (x y : Int) (hx : isInt16 x) (hy : isInt16 y) :
    (|y| < |x| → 0 < x → toDirection x y = Direction.Right) ∧
    (|y| < |x| → x < 0 → toDirection x y = Direction.Left) ∧
    (|x| < |y| → 0 < y → toDirection x y = Direction.Down) ∧
    (|x| < |y| → y < 0 → toDirection x y = Direction.Up) := by
  obtain ⟨hx1, hx2⟩ := hx
  obtain ⟨hy1, hy2⟩ := hy
  refine ⟨?_, ?_, ?_, ?_⟩ <;> intro habs hs <;>
    rcases abs_cases x with ⟨ex, _⟩ | ⟨ex, _⟩ <;>
    rcases abs_cases y with ⟨ey, _⟩ | ⟨ey, _⟩ <;>
    rw [ex, ey] at habs <;> unfold toDirection <;> split_ifs <;>
    first
      | rfl
      | omega

/-- C2 on the axes and at the extreme value: `(-32768, 0)` is `Left`, `(0, -32768)` is
`Up`, `(7, 0)` is `Right` and `(0, 7)` is `Down`. -/
theorem toDirection_sectors_witness :
    toDirection 7 0 = Direction.Right ∧ toDirection (-32768) 0 = Direction.Left ∧
    toDirection 0 7 = Direction.Down ∧ toDirection 0 (-32768) = Direction.Up :=
  ⟨(toDirection_sectors 7 0 (by decide) (by decide)).1 (by norm_num) (by norm_num),
   (toDirection_sectors (-32768) 0 (by decide) (by decide)).2.1 (by norm_num) (by norm_num),
   (toDirection_sectors 0 7 (by decide) (by decide)).2.2.1 (by norm_num) (by norm_num),
   (toDirection_sectors 0 (-32768) (by decide) (by decide)).2.2.2 (by norm_num)
     (by norm_num)⟩

/-- C3: on the diagonals ties are resolved clockwise. For 16-bit `(x, y)`: `x = y > 0`
gives `Right`; `x < 0` with `y = -x` gives `Down`; `x = y < 0` gives `Left`; `x > 0` with
`y = -x` gives `Up`. -/
theorem toDirection_diagonals (x y : Int) (hx : isInt16 x) (hy : isInt16 y) :
    (x = y → 0 < x → toDirection x y = Direction.Right) ∧
    (x < 0 → y = -x → toDirection x y = Direction.Down) ∧
    (x = y → x < 0 → toDirection x y = Direction.Left) ∧
    (0 < x → y = -x → toDirection x y = Direction.Up) := by
  obtain ⟨hx1, hx2⟩ := hx
  obtain ⟨hy1, hy2⟩ := hy
  refine ⟨?_, ?_, ?_, ?_⟩ <;> intro h1 h2 <;> unfold toDirection <;> split_ifs <;>
    first
      | rfl
      | omega

/-- C3 at the ends of the four diagonals of the 16-bit square. -/
theorem toDirection_diagonals_witness :
    toDirection 32767 32767 = Direction.Right ∧
    toDirection (-32767) 32767 = Direction.Down ∧
    toDirection (-32768) (-32768) = Direction.Left ∧
    toDirection 32767 (-32767) = Direction.Up :=
  ⟨(toDirection_diagonals 32767 32767 (by decide) (by decide)).1 rfl (by decide),
   (toDirection_diagonals (-32767) 32767 (by decide) (by decide)).2.1 (by decide) rfl,
   (toDirection_diagonals (-32768) (-32768) (by decide) (by decide)).2.2.1 rfl
     (by decide),
   (toDirection_diagonals 32767 (-32767) (by decide) (by decide)).2.2.2 (by decide) rfl⟩

/-! ## Theorems: direction names -/

/-- Upper-casing characters of a five-letter string position by position. -/
theorem upperCaseAt_five (mask : Nat → Bool) (a b c d e : Char) :
    upperCaseAt mask [a, b, c, d, e] =
      [if mask 0 then a.toUpper else a, if mask 1 then b.toUpper else b,
       if mask 2 then c.toUpper else c, if mask 3 then d.toUpper else d,
       if mask 4 then e.toUpper else e] := by
  simp [upperCaseAt]

/-- Upper-casing characters of a four-letter string position by position. -/
theorem upperCaseAt_four (mask : Nat → Bool) (a b c d : Char) :
    upperCaseAt mask [a, b, c, d] =
      [if mask 0 then a.toUpper else a, if mask 1 then b.toUpper else b,
       if mask 2 then c.toUpper else c, if mask 3 then d.toUpper else d] := by
  simp [upperCaseAt]

/-- Upper-casing characters of a two-letter string position by position. -/
theorem upperCaseAt_two (mask : Nat → Bool) (a b : Char) :
    upperCaseAt mask [a, b] =
      [if mask 0 then a.toUpper else a, if mask 1 then b.toUpper else b] := by
  simp [upperCaseAt]

/-- C4: name round trip. For each of the five directions `fromDirection` succeeds with a
name, parsing that name gives the direction back, and so does parsing the name with any
subset of its letters upper-cased (any spelling whose lower-casing is the name). -/
theorem direction_name_round_trip (d : Direction) :
    ∃ name, fromDirection d = Except.ok name ∧ toDirectionName name = Except.ok d ∧
      (∀ mask : Nat → Bool, toDirectionName (upperCaseAt mask name) = Except.ok d) ∧
      (∀ s : List Char, s.map Char.toLower = name → toDirectionName s = Except.ok d) := by
  cases d
  · refine ⟨['u', 'p'], rfl, by decide, ?_, ?_⟩
    · intro mask
      rw [upperCaseAt_two]
      cases mask 0 <;> cases mask 1 <;> decide
    · intro s hs
      unfold toDirectionName
      simp only [hs]
      decide
  · refine ⟨['d', 'o', 'w', 'n'], rfl, by decide, ?_, ?_⟩
    · intro mask
      rw [upperCaseAt_four]
      cases mask 0 <;> cases mask 1 <;> cases mask 2 <;> cases mask 3 <;> decide
    · intro s hs
      unfold toDirectionName
      simp only [hs]
      decide
  · refine ⟨['l', 'e', 'f', 't'], rfl, by decide, ?_, ?_⟩
    · intro mask
      rw [upperCaseAt_four]
      cases mask 0 <;> cases mask 1 <;> cases mask 2 <;> cases mask 3 <;> decide
    · intro s hs
      unfold toDirectionName
      simp only [hs]
      decide
  · refine ⟨['r', 'i', 'g', 'h', 't'], rfl, by decide, ?_, ?_⟩
    · intro mask
      rw [upperCaseAt_five]
      cases mask 0 <;> cases mask 1 <;> cases mask 2 <;> cases mask 3 <;> cases mask 4 <;>
        decide
    · intro s hs
      unfold toDirectionName
      simp only [hs]
      decide
  · refine ⟨['n', 'o', 'n', 'e'], rfl, by decide, ?_, ?_⟩
    · intro mask
      rw [upperCaseAt_four]
      cases mask 0 <;> cases mask 1 <;> cases mask 2 <;> cases mask 3 <;> decide
    · intro s hs
      unfold toDirectionName
      simp only [hs]
      decide

/-! ## Lemmas: maps of gestures -/

section MapLemmas

variable {γ : Type}

/-- A 16-bit value is unchanged by the conversion to `int16_t`. -/
theorem toInt16_of_isInt16 (v : Int) (h : isInt16 v) : toInt16 v = v := by
  unfold isInt16 at h
  unfold toInt16
  omega

/-- Every direction occurs in the iteration order. -/
theorem Direction.mem_order (d : Direction) : d ∈ Direction.order := by
  cases d <;> simp [Direction.order]

/-- The iteration order lists no direction twice. -/
theorem Direction.nodup_order : Direction.order.Nodup := by
  decide

/-- A bound direction holds a gesture object. -/
theorem GestureMap.bound_iff (m : GestureMap γ) (d : Direction) :
    m.bound d = true ↔ ∃ g, m d = some (some g) := by
  unfold GestureMap.bound
  rcases h : m d with _ | _ | g <;> simp

/-- Without null entries, a direction that is not bound has no entry. -/
theorem GestureMap.eq_none_of_not_bound (m : GestureMap γ) (hnn : m.NoNull) (d : Direction)
    (h : m.bound d = false) : m d = none := by
  unfold GestureMap.bound at h
  rcases hd : m d with _ | _ | g
  · rfl
  · exact absurd hd (hnn d)
  · rw [hd] at h
    simp at h

/-- A gesture that meets its threshold is bound. -/
theorem GestureMap.met_iff (G : Gesture γ) (m : GestureMap γ) (d : Direction) :
    m.met G d = true ↔ ∃ g, m d = some (some g) ∧ G.metThreshold g = true := by
  unfold GestureMap.met
  rcases h : m d with _ | _ | g <;> simp

/-- Replacing the object of a bound direction keeps the set of bound directions. -/
theorem GestureMap.bound_update (m : GestureMap γ) (e : Direction) (g : γ)
    (h : m.bound e = true) (e' : Direction) :
    GestureMap.bound (Function.update m e (some (some g))) e' = m.bound e' := by
  unfold GestureMap.bound
  by_cases he : e' = e
  · subst he
    unfold GestureMap.bound at h
    rw [Function.update_same]
    rcases hm : m e' with _ | _ | g' <;> simp [hm] at h ⊢
  · rw [Function.update_noteq he]

/-- Storing an object in an entry creates no null entry. -/
theorem GestureMap.NoNull_update (m : GestureMap γ) (e : Direction) (g : γ)
    (h : m.NoNull) : GestureMap.NoNull (Function.update m e (some (some g))) := by
  intro e'
  by_cases he : e' = e
  · subst he
    rw [Function.update_same]
    simp
  · rw [Function.update_noteq he]
    exact h e'

/-- The first element of a list with a property, when there is one. -/
theorem exists_first (p : Direction → Bool) :
    ∀ l : List Direction, (∃ e ∈ l, p e = true) →
      ∃ pre w post, l = pre ++ w :: post ∧ p w = true ∧ ∀ e ∈ pre, p e = false := by
  intro l
  induction l with
  | nil =>
    rintro ⟨e, he, _⟩
    simp at he
  | cons a rest ih =>
    rintro ⟨e, he, hp⟩
    by_cases ha : p a = true
    · exact ⟨[], a, rest, rfl, ha, by simp⟩
    · have hrest : ∃ e ∈ rest, p e = true := by
        rcases List.mem_cons.mp he with h | h
        · subst h
          exact absurd hp ha
        · exact ⟨e, h, hp⟩
      obtain ⟨pre, w, post, hl, hw, hpre⟩ := ih hrest
      refine ⟨a :: pre, w, post, by simp [hl], hw, ?_⟩
      intro x hx
      rcases List.mem_cons.mp hx with h | h
      · subst h
        simpa using ha
      · exact hpre x h

/-- In a list without repetition, the calls built from a sub-list name each direction at
most once. -/
theorem count_filter_map (l : List Direction) (hl : l.Nodup) (p : Direction → Bool)
    (c : Call) (e : Direction) (c' : Call) :
    List.count (e, c') ((l.filter p).map (fun x => (x, c))) =
      if e ∈ l ∧ p e = true ∧ c' = c then 1 else 0 := by
  induction l with
  | nil => simp
  | cons a rest ih =>
    have hnd := List.nodup_cons.mp hl
    by_cases hpa : p a = true
    · rw [List.filter_cons_of_pos hpa, List.map_cons, List.count_cons, ih hnd.2]
      by_cases hea : e = a
      · subst hea
        by_cases hc : c' = c
        · subst hc
          simp [hnd.1, hpa]
        · have : ¬ ((e, c) = (e, c')) := by
            intro h
            exact hc (Prod.mk.inj h).2.symm
          simp [hnd.1, hc, this]
      · have : ¬ ((a, c) = (e, c')) := by
          intro h
          exact hea (Prod.mk.inj h).1.symm
        simp [hea, this]
    · have hpa' : ¬ (p a = true) := hpa
      rw [List.filter_cons_of_neg hpa', ih hnd.2]
      by_cases hea : e = a
      · subst hea
        simp [hnd.1, hpa]
      · simp [hea]

end MapLemmas

/-! ## Lemmas: the loops of `press` and `release` -/

section LoopLemmas

variable {γ : Type}

/-- The loop of `release()` once a threshold was met: every bound direction of the list
other than `d` is released with `false`, in order, and the flag stays true. -/
theorem releaseLoop_flag_true (G : Gesture γ) (d : Direction) :
    ∀ (l : List Direction) (m : GestureMap γ) (log : List Event), m.NoNull →
      ∃ m', releaseLoop G d l m true log = some (m', true,
          log ++ (l.filter (fun e => decide (e ≠ d) && m.bound e)).map
            (fun e => (e, Call.release false))) ∧
        m'.NoNull ∧ (∀ e, m'.bound e = m.bound e) ∧ m' d = m d := by
  intro l
  induction l with
  | nil =>
    intro m log hnn
    exact ⟨m, by simp [releaseLoop], hnn, fun _ => rfl, rfl⟩
  | cons a rest ih =>
    intro m log hnn
    rcases hma : m a with _ | _ | g
    · have hb : m.bound a = false := by simp [GestureMap.bound, hma]
      obtain ⟨m', h1, h2, h3, h4⟩ := ih m log hnn
      refine ⟨m', ?_, h2, h3, h4⟩
      simp only [releaseLoop, hma, h1]
      simp [hb]
    · exact absurd hma (hnn a)
    · have hb : m.bound a = true := by simp [GestureMap.bound, hma]
      by_cases had : a = d
      · obtain ⟨m', h1, h2, h3, h4⟩ := ih m log hnn
        refine ⟨m', ?_, h2, h3, h4⟩
        simp only [releaseLoop, hma]
        rw [if_pos had, h1]
        simp [had]
      · obtain ⟨m', h1, h2, h3, h4⟩ :=
          ih (Function.update m a (some (some (G.release false g))))
            (log ++ [(a, Call.release false)]) (GestureMap.NoNull_update m a _ hnn)
        refine ⟨m', ?_, h2, ?_, ?_⟩
        · simp only [releaseLoop, hma, had, if_false, h1]
          simp [GestureMap.bound_update m a _ hb, had, hb]
        · intro e
          rw [h3 e, GestureMap.bound_update m a _ hb]
        · rw [h4, Function.update_noteq (Ne.symm had)]

/-- The loop of `release()` while no threshold was met, when no gesture of the list other
than `d` meets its threshold: no call is made and the flag stays false. -/
theorem releaseLoop_flag_false_none (G : Gesture γ) (d : Direction) :
    ∀ (l : List Direction) (m : GestureMap γ) (log : List Event), m.NoNull →
      (∀ e ∈ l, e ≠ d → m.met G e = false) →
      releaseLoop G d l m false log = some (m, false, log) := by
  intro l
  induction l with
  | nil =>
    intro m log _ _
    simp [releaseLoop]
  | cons a rest ih =>
    intro m log hnn hl
    have hrest : ∀ e ∈ rest, e ≠ d → m.met G e = false :=
      fun e he => hl e (List.mem_cons_of_mem a he)
    rcases hma : m a with _ | _ | g
    · simp only [releaseLoop, hma]
      exact ih m log hnn hrest
    · exact absurd hma (hnn a)
    · by_cases had : a = d
      · simp only [releaseLoop, hma]
        rw [if_pos had]
        exact ih m log hnn hrest
      · have hg : G.metThreshold g = false := by
          have := hl a (List.mem_cons_self a rest) had
          simpa [GestureMap.met, hma] using this
        simp only [releaseLoop, hma, had, if_false, hg]
        simpa using ih m log hnn hrest

/-- The loop of `release()` while no threshold was met, when `w` is the first direction of
the list, other than `d`, whose gesture meets its threshold: `w` is released with `true`,
nothing else is called, and the loop ends with the flag true. -/
theorem releaseLoop_flag_false_first (G : Gesture γ) (d : Direction) (w : Direction)
    (post : List Direction) :
    ∀ (pre : List Direction) (m : GestureMap γ) (log : List Event) (g : γ), m.NoNull →
      (∀ e ∈ pre, e ≠ d → m.met G e = false) → w ≠ d → m w = some (some g) →
      G.metThreshold g = true →
      releaseLoop G d (pre ++ w :: post) m false log =
        some (Function.update m w (some (some (G.release true g))), true,
          log ++ [(w, Call.release true)]) := by
  intro pre
  induction pre with
  | nil =>
    intro m log g _ _ hwd hw hg
    simp [releaseLoop, hw, hwd, hg]
  | cons a rest ih =>
    intro m log g hnn hl hwd hw hg
    have hrest : ∀ e ∈ rest, e ≠ d → m.met G e = false :=
      fun e he => hl e (List.mem_cons_of_mem a he)
    rcases hma : m a with _ | _ | ga
    · simp only [List.cons_append, releaseLoop, hma]
      exact ih m log g hnn hrest hwd hw hg
    · exact absurd hma (hnn a)
    · by_cases had : a = d
      · simp only [List.cons_append, releaseLoop, hma]
        rw [if_pos had]
        exact ih m log g hnn hrest hwd hw hg
      · have hga : G.metThreshold ga = false := by
          have := hl a (List.mem_cons_self a rest) had
          simpa [GestureMap.met, hma] using this
        simp only [List.cons_append, releaseLoop, hma, had, if_false, hga]
        simpa using ih m log g hnn hrest hwd hw hg

/-- The loop of `press()`: every bound direction of the list is pressed, in order. -/
theorem pressLoop_eq (G : Gesture γ) :
    ∀ (l : List Direction) (m : GestureMap γ) (log : List Event), m.NoNull →
      ∃ m', pressLoop G l m log = some (m',
          log ++ (l.filter (fun e => m.bound e)).map (fun e => (e, Call.press false))) ∧
        m'.NoNull ∧ (∀ e, m'.bound e = m.bound e) := by
  intro l
  induction l with
  | nil =>
    intro m log hnn
    exact ⟨m, by simp [pressLoop], hnn, fun _ => rfl⟩
  | cons a rest ih =>
    intro m log hnn
    rcases hma : m a with _ | _ | g
    · have hb : m.bound a = false := by simp [GestureMap.bound, hma]
      obtain ⟨m', h1, h2, h3⟩ := ih m log hnn
      refine ⟨m', ?_, h2, h3⟩
      simp only [pressLoop, hma, h1]
      simp [hb]
    · exact absurd hma (hnn a)
    · have hb : m.bound a = true := by simp [GestureMap.bound, hma]
      obtain ⟨m', h1, h2, h3⟩ :=
        ih (Function.update m a (some (some (G.press false g))))
          (log ++ [(a, Call.press false)]) (GestureMap.NoNull_update m a _ hnn)
      refine ⟨m', ?_, h2, ?_⟩
      · simp only [pressLoop, hma, h1]
        simp [GestureMap.bound_update m a _ hb, hb]
      · intro e
        rw [h3 e, GestureMap.bound_update m a _ hb]

/-- The classifier never returns `None`, whatever the integers. -/
theorem toDirection_ne_None (x y : Int) : toDirection x y ≠ Direction.None := by
  unfold toDirection
  split_ifs <;> simp

/-- The first step of `release()`: the primary direction's gesture, when bound, is asked
for its threshold and released with `true`; the other entries are untouched. -/
theorem releasePrimary_eq (G : Gesture γ) (d : Direction) (m : GestureMap γ)
    (hnn : m.NoNull) :
    ∃ m1, releasePrimary G d m = some (m1, m.met G d,
        if m.bound d = true then [(d, Call.release true)] else []) ∧
      m1.NoNull ∧ (∀ e, m1.bound e = m.bound e) ∧ (∀ e, e ≠ d → m1 e = m e) := by
  rcases hmd : m d with _ | _ | g
  · refine ⟨m, ?_, hnn, fun _ => rfl, fun _ _ => rfl⟩
    simp [releasePrimary, hmd, GestureMap.met, GestureMap.bound]
  · exact absurd hmd (hnn d)
  · have hb : m.bound d = true := by simp [GestureMap.bound, hmd]
    refine ⟨Function.update m d (some (some (G.release true g))), ?_,
      GestureMap.NoNull_update m d _ hnn, GestureMap.bound_update m d _ hb, ?_⟩
    · simp [releasePrimary, hmd, GestureMap.met, GestureMap.bound]
    · intro e he
      rw [Function.update_noteq he]

/-- The calls of `release()` when the primary direction's gesture met its threshold: it is
released with `true`, then every other bound gesture with `false`, in key order. -/
theorem release_eq_of_primary_met (G : Gesture γ) (s : GestureAction γ)
    (hnn : s._gestures.NoNull)
    (hmet : s._gestures.met G (toDirection s._x s._y) = true) :
    ∃ s', s.release G = some (s',
        (toDirection s._x s._y, Call.release true) ::
          (Direction.order.filter
            (fun e => decide (e ≠ toDirection s._x s._y) && s._gestures.bound e)).map
            (fun e => (e, Call.release false))) ∧
      s'._pressed = false ∧ s'._x = s._x ∧ s'._y = s._y ∧ s'._gestures.NoNull ∧
      ∀ e, s'._gestures.bound e = s._gestures.bound e := by
  obtain ⟨m1, h1, hnn1, hb1, _⟩ := releasePrimary_eq G (toDirection s._x s._y) s._gestures hnn
  have hb : s._gestures.bound (toDirection s._x s._y) = true := by
    obtain ⟨g, hg, _⟩ := (GestureMap.met_iff G _ _).mp hmet
    exact (GestureMap.bound_iff _ _).mpr ⟨g, hg⟩
  rw [hmet, if_pos hb] at h1
  obtain ⟨m2, h2, hnn2, hb2, _⟩ := releaseLoop_flag_true G (toDirection s._x s._y)
    Direction.order m1 [(toDirection s._x s._y, Call.release true)] hnn1
  have hfun : (fun e => decide (e ≠ toDirection s._x s._y) && m1.bound e) =
      (fun e => decide (e ≠ toDirection s._x s._y) && s._gestures.bound e) := by
    funext e
    rw [hb1 e]
  rw [hfun] at h2
  refine ⟨GestureAction.mk false s._x s._y m2, ?_, rfl, rfl, rfl, hnn2, ?_⟩
  · simp only [GestureAction.release, h1, h2, releaseNone]
    simp
  · intro e
    show m2.bound e = s._gestures.bound e
    rw [hb2 e, hb1 e]

/-- The calls of `release()` when the primary direction's gesture is unbound or did not
meet its threshold and `w` is the first other direction, in key order, whose gesture
did: the primary direction's gesture (when bound) and then `w` are released with `true`,
and no other call is made. -/
theorem release_eq_of_secondary_met (G : Gesture γ) (s : GestureAction γ)
    (pre post : List Direction) (w : Direction) (hnn : s._gestures.NoNull)
    (hprim : s._gestures.met G (toDirection s._x s._y) = false)
    (hord : Direction.order = pre ++ w :: post)
    (hpre : ∀ e ∈ pre, e ≠ toDirection s._x s._y → s._gestures.met G e = false)
    (hwd : w ≠ toDirection s._x s._y) (hw : s._gestures.met G w = true) :
    ∃ s', s.release G = some (s',
        (if s._gestures.bound (toDirection s._x s._y) = true
          then [(toDirection s._x s._y, Call.release true)] else []) ++
          [(w, Call.release true)]) ∧
      s'._pressed = false ∧ s'._x = s._x ∧ s'._y = s._y ∧ s'._gestures.NoNull ∧
      ∀ e, s'._gestures.bound e = s._gestures.bound e := by
  obtain ⟨m1, h1, hnn1, hb1, hm1⟩ :=
    releasePrimary_eq G (toDirection s._x s._y) s._gestures hnn
  rw [hprim] at h1
  obtain ⟨g, hg, hgm⟩ := (GestureMap.met_iff G _ _).mp hw
  have hpre1 : ∀ e ∈ pre, e ≠ toDirection s._x s._y → m1.met G e = false := by
    intro e he hed
    have := hpre e he hed
    simpa [GestureMap.met, hm1 e hed] using this
  have hw1 : m1 w = some (some g) := by rw [hm1 w hwd, hg]
  have h2 := releaseLoop_flag_false_first G (toDirection s._x s._y) w post pre m1
    (if s._gestures.bound (toDirection s._x s._y) = true
      then [(toDirection s._x s._y, Call.release true)] else []) g hnn1 hpre1 hwd hw1 hgm
  rw [← hord] at h2
  have hbw : m1.bound w = true := (GestureMap.bound_iff _ _).mpr ⟨g, hw1⟩
  refine ⟨GestureAction.mk false s._x s._y
      (Function.update m1 w (some (some (G.release true g)))), ?_, rfl, rfl, rfl,
    GestureMap.NoNull_update m1 w _ hnn1, ?_⟩
  · simp only [GestureAction.release, h1, h2, releaseNone]
    simp
  · intro e
    show GestureMap.bound (Function.update m1 w (some (some (G.release true g)))) e = _
    rw [GestureMap.bound_update m1 w _ hbw, hb1 e]

/-- The calls of `release()` when no bound gesture met its threshold: the primary
direction's gesture (when bound) is released with `true`, then the gesture of `None`
(when bound) receives `press()` and `release()`; no other call is made. -/
theorem release_eq_of_none_met (G : Gesture γ) (s : GestureAction γ)
    (hnn : s._gestures.NoNull) (hno : ∀ e, s._gestures.met G e = false) :
    ∃ s', s.release G = some (s',
        (if s._gestures.bound (toDirection s._x s._y) = true
          then [(toDirection s._x s._y, Call.release true)] else []) ++
        (if s._gestures.bound Direction.None = true
          then [(Direction.None, Call.press false), (Direction.None, Call.release false)]
          else [])) ∧
      s'._pressed = false ∧ s'._x = s._x ∧ s'._y = s._y ∧ s'._gestures.NoNull ∧
      ∀ e, s'._gestures.bound e = s._gestures.bound e := by
  obtain ⟨m1, h1, hnn1, hb1, hm1⟩ :=
    releasePrimary_eq G (toDirection s._x s._y) s._gestures hnn
  rw [hno] at h1
  have hno1 : ∀ e ∈ Direction.order, e ≠ toDirection s._x s._y → m1.met G e = false := by
    intro e _ hed
    have := hno e
    simpa [GestureMap.met, hm1 e hed] using this
  have h2 := releaseLoop_flag_false_none G (toDirection s._x s._y) Direction.order m1
    (if s._gestures.bound (toDirection s._x s._y) = true
      then [(toDirection s._x s._y, Call.release true)] else []) hnn1 hno1
  have hN : m1 Direction.None = s._gestures Direction.None :=
    hm1 Direction.None (Ne.symm (toDirection_ne_None s._x s._y))
  rcases hmN : s._gestures Direction.None with _ | _ | g
  · have hbN : s._gestures.bound Direction.None = false := by
      simp [GestureMap.bound, hmN]
    refine ⟨GestureAction.mk false s._x s._y m1, ?_, rfl, rfl, rfl, hnn1, hb1⟩
    simp only [GestureAction.release, h1, h2, releaseNone, hN, hmN, hbN]
    simp
  · exact absurd hmN (hnn _)
  · have hbN : s._gestures.bound Direction.None = true := by
      simp [GestureMap.bound, hmN]
    have hbN1 : m1.bound Direction.None = true := by rw [hb1, hbN]
    refine ⟨GestureAction.mk false s._x s._y (Function.update m1 Direction.None
          (some (some (G.release false (G.press false g))))), ?_, rfl, rfl, rfl,
      GestureMap.NoNull_update m1 _ _ hnn1, ?_⟩
    · simp only [GestureAction.release, h1, h2, releaseNone, hN, hmN, hbN]
      simp
    · intro e
      show GestureMap.bound (Function.update m1 Direction.None _) e = _
      rw [GestureMap.bound_update m1 _ _ hbN1, hb1 e]

/-- The calls of `press()`: every bound gesture is pressed once, in key order; the
offset is reset and the bindings are kept. -/
theorem press_eq (G : Gesture γ) (s : GestureAction γ) (hnn : s._gestures.NoNull) :
    ∃ s1, s.press G = some (s1,
        (Direction.order.filter (fun e => s._gestures.bound e)).map
          (fun e => (e, Call.press false))) ∧
      s1._pressed = true ∧ s1._x = 0 ∧ s1._y = 0 ∧ s1._gestures.NoNull ∧
      ∀ e, s1._gestures.bound e = s._gestures.bound e := by
  obtain ⟨m', h1, h2, h3⟩ := pressLoop_eq G Direction.order s._gestures [] hnn
  refine ⟨GestureAction.mk true 0 0 m', ?_, rfl, rfl, rfl, h2, h3⟩
  simp only [GestureAction.press, h1]
  simp

/-- A delivery to a bound direction: its gesture receives `move`. -/
theorem deliver_bound (G : Gesture γ) (r : GestureMap γ × List Event) (d : Direction)
    (v : Int) (g : γ) (h : r.1 d = some (some g)) :
    deliver G r d v = (Function.update r.1 d (some (some (G.move (toInt16 v) g))),
      r.2 ++ [(d, Call.move (toInt16 v))]) := by
  simp [deliver, h]

/-- A delivery to a direction that is not bound makes no call. -/
theorem deliver_unbound (G : Gesture γ) (r : GestureMap γ × List Event) (d : Direction)
    (v : Int) (h : r.1.bound d = false) : deliver G r d v = r := by
  unfold GestureMap.bound at h
  unfold deliver
  rcases hd : r.1 d with _ | _ | g
  · rfl
  · rfl
  · rw [hd] at h
    simp at h

end LoopLemmas

/-! ## Theorems: release arbitration -/

/-- C5: release arbitration when the primary wins. In every state without null entries
whose primary direction `d = toDirection x y` is bound to a gesture that reports
`metThreshold`, `release()` returns, leaves the state idle, releases that gesture exactly
once and with `primary = true`, releases every other bound gesture (`None` included)
exactly once and with `primary = false` (never with `true`), and makes no `press` or
`move` call. Scenario A:
after `press`, `move(30, 0)`, `move(30, 0)` the `Right` gesture has received two moves of
`30` and nothing else was moved; if it then reports `metThreshold`, `release()` releases
it with `true` and releases no other gesture with `true`. -/
theorem release_primary_wins {γ : Type} (G : Gesture γ) :
    (∀ (s : GestureAction γ) (g : γ), s._gestures.NoNull →
      s._gestures (toDirection s._x s._y) = some (some g) → G.metThreshold g = true →
      ∃ s' log, s.release G = some (s', log) ∧ s'._pressed = false ∧
        log.count (toDirection s._x s._y, Call.release true) = 1 ∧
        log.count (toDirection s._x s._y, Call.release false) = 0 ∧
        (∀ e, e ≠ toDirection s._x s._y → log.count (e, Call.release true) = 0 ∧
          (s._gestures.bound e = true → log.count (e, Call.release false) = 1)) ∧
        (∀ e b, (e, Call.press b) ∉ log) ∧ (∀ e v, (e, Call.move v) ∉ log)) ∧
    (∀ (s : GestureAction γ), s._gestures.NoNull → s._gestures.bound Direction.Right = true →
      ∃ s1 l1, s.press G = some (s1, l1) ∧
        (s1.move G 30 0).2 = [(Direction.Right, Call.move 30)] ∧
        ((s1.move G 30 0).1.move G 30 0).2 = [(Direction.Right, Call.move 30)] ∧
        (GestureMap.met G ((s1.move G 30 0).1.move G 30 0).1._gestures Direction.Right = true →
          ∃ s4 l4, ((s1.move G 30 0).1.move G 30 0).1.release G = some (s4, l4) ∧
            s4._pressed = false ∧ l4.count (Direction.Right, Call.release true) = 1 ∧
            ∀ e, e ≠ Direction.Right → (e, Call.release true) ∉ l4)) := by
  have general : ∀ (s : GestureAction γ), s._gestures.NoNull →
      s._gestures.met G (toDirection s._x s._y) = true →
      ∃ s' log, s.release G = some (s', log) ∧ s'._pressed = false ∧
        log.count (toDirection s._x s._y, Call.release true) = 1 ∧
        log.count (toDirection s._x s._y, Call.release false) = 0 ∧
        (∀ e, e ≠ toDirection s._x s._y → log.count (e, Call.release true) = 0 ∧
          (s._gestures.bound e = true → log.count (e, Call.release false) = 1)) ∧
        (∀ e b, (e, Call.press b) ∉ log) ∧ (∀ e v, (e, Call.move v) ∉ log) := by
    intro s hnn hmet
    obtain ⟨s', hrel, hp, _, _, _, _⟩ := release_eq_of_primary_met G s hnn hmet
    refine ⟨s', _, hrel, hp, ?_, ?_, ?_, ?_, ?_⟩
    · rw [List.count_cons_self, count_filter_map _ Direction.nodup_order]
      simp
    · rw [List.count_cons_of_ne (by simp), count_filter_map _ Direction.nodup_order]
      simp
    · intro e hed
      constructor
      · rw [List.count_cons_of_ne (by simp [hed]),
          count_filter_map _ Direction.nodup_order]
        simp
      · intro hbe
        rw [List.count_cons_of_ne (by simp), count_filter_map _ Direction.nodup_order]
        simp [Direction.mem_order, hed, hbe]
    · intro e b
      simp
    · intro e v
      simp
  constructor
  · intro s g hnn hb hm
    exact general s hnn (by simp [GestureMap.met, hb, hm])
  · intro s hnn hR
    obtain ⟨s1, hpress, _, hx, hy, hnn1, hb1⟩ := press_eq G s hnn
    obtain ⟨g1, hg1⟩ := (GestureMap.bound_iff _ _).mp ((hb1 Direction.Right).trans hR)
    have hmove1 : s1.move G 30 0 =
        (GestureAction.mk s1._pressed 30 0
          (Function.update s1._gestures Direction.Right (some (some (G.move 30 g1)))),
          [(Direction.Right, Call.move 30)]) := by
      simp [GestureAction.move, moveX, moveY, deliver, hx, hy, hg1, toInt16]
    have hmove2 : (s1.move G 30 0).1.move G 30 0 =
        (GestureAction.mk s1._pressed 60 0
          (Function.update (Function.update s1._gestures Direction.Right
            (some (some (G.move 30 g1)))) Direction.Right
            (some (some (G.move 30 (G.move 30 g1))))),
          [(Direction.Right, Call.move 30)]) := by
      rw [hmove1]
      simp [GestureAction.move, moveX, moveY, deliver, toInt16]
    refine ⟨s1, _, hpress, by rw [hmove1], by rw [hmove2], ?_⟩
    rw [hmove2]
    intro hmet
    have hnn3 : GestureMap.NoNull (Function.update (Function.update s1._gestures
        Direction.Right (some (some (G.move 30 g1)))) Direction.Right
        (some (some (G.move 30 (G.move 30 g1))))) :=
      GestureMap.NoNull_update _ _ _ (GestureMap.NoNull_update _ _ _ hnn1)
    have hd : toDirection 60 0 = Direction.Right := by decide
    obtain ⟨s4, l4, h4, hp4, hc1, _, hc3, _, _⟩ :=
      general (GestureAction.mk s1._pressed 60 0 _) hnn3 (by rw [hd]; exact hmet)
    simp only [hd] at hc1
    refine ⟨s4, l4, h4, hp4, hc1, ?_⟩
    intro e he
    have := (hc3 e (by rw [hd]; exact he)).1
    exact List.count_eq_zero.mp this

/-- C5 on Scenario A: at `(60, 0)` with the `Right` gesture at 60 of 50, `Right` is
released once with `true` and each other gesture once with `false`; and the whole scenario
from the idle state over five fresh gestures. -/
theorem release_primary_wins_witness :
    (scenarioA._gestures.NoNull ∧
    ∃ s' log, scenarioA.release ReleaseGesture.methods = some (s', log) ∧
      s'._pressed = false ∧
      log.count (toDirection scenarioA._x scenarioA._y, Call.release true) = 1 ∧
      log.count (toDirection scenarioA._x scenarioA._y, Call.release false) = 0 ∧
      (∀ e, e ≠ toDirection scenarioA._x scenarioA._y →
        log.count (e, Call.release true) = 0 ∧
        (scenarioA._gestures.bound e = true → log.count (e, Call.release false) = 1)) ∧
      (∀ e b, (e, Call.press b) ∉ log) ∧ (∀ e v, (e, Call.move v) ∉ log)) ∧
    ∃ s1 l1, (GestureAction.init allBound).press ReleaseGesture.methods = some (s1, l1) ∧
      (s1.move ReleaseGesture.methods 30 0).2 = [(Direction.Right, Call.move 30)] ∧
      ((s1.move ReleaseGesture.methods 30 0).1.move ReleaseGesture.methods 30 0).2 =
        [(Direction.Right, Call.move 30)] ∧
      (GestureMap.met ReleaseGesture.methods
          ((s1.move ReleaseGesture.methods 30 0).1.move
            ReleaseGesture.methods 30 0).1._gestures Direction.Right = true →
        ∃ s4 l4, ((s1.move ReleaseGesture.methods 30 0).1.move
            ReleaseGesture.methods 30 0).1.release ReleaseGesture.methods = some (s4, l4) ∧
          s4._pressed = false ∧ l4.count (Direction.Right, Call.release true) = 1 ∧
          ∀ e, e ≠ Direction.Right → (e, Call.release true) ∉ l4) :=
  ⟨⟨by decide,
    (release_primary_wins ReleaseGesture.methods).1 scenarioA { _axis := 60, threshold := 50 }
      (by decide) (by decide) (by decide)⟩,
   (release_primary_wins ReleaseGesture.methods).2 (GestureAction.init allBound) (by decide)
     (by decide)⟩

/-- C6: release arbitration, secondary winner and tie-break order. In every state without
null entries whose primary direction `d` is unbound or bound to a gesture that does not
meet its threshold, and in which some other bound gesture does, `release()` returns and
releases with `primary = true`, exactly once, the gesture of the first direction `w` of
the key order `Up, Down, Left, Right, None`, `d` skipped, whose `metThreshold` is true; no
gesture of a direction other than `d` and `w` is released with `primary = true`. -/
theorem release_secondary_wins {γ : Type} (G : Gesture γ) (s : GestureAction γ)
    (hnn : s._gestures.NoNull)
    (hprim : s._gestures.met G (toDirection s._x s._y) = false)
    (hex : ∃ e, e ≠ toDirection s._x s._y ∧ s._gestures.met G e = true) :
    ∃ pre w post s' log, Direction.order = pre ++ w :: post ∧
      w ≠ toDirection s._x s._y ∧ s._gestures.met G w = true ∧
      (∀ e ∈ pre, e ≠ toDirection s._x s._y → s._gestures.met G e = false) ∧
      s.release G = some (s', log) ∧ s'._pressed = false ∧
      log.count (w, Call.release true) = 1 ∧ log.count (w, Call.release false) = 0 ∧
      ∀ e, e ≠ toDirection s._x s._y → e ≠ w → (e, Call.release true) ∉ log := by
  obtain ⟨e0, he0, hm0⟩ := hex
  obtain ⟨pre, w, post, hord, hw, hpre⟩ :=
    exists_first (fun e => decide (e ≠ toDirection s._x s._y) && s._gestures.met G e)
      Direction.order ⟨e0, Direction.mem_order e0, by simp [he0, hm0]⟩
  have hwd : w ≠ toDirection s._x s._y := by
    intro h
    simp [h] at hw
  have hwm : s._gestures.met G w = true := by
    simpa [hwd] using hw
  have hpre' : ∀ e ∈ pre, e ≠ toDirection s._x s._y → s._gestures.met G e = false := by
    intro e he hed
    have := hpre e he
    simpa [hed] using this
  obtain ⟨s', hrel, hp, _, _, _, _⟩ :=
    release_eq_of_secondary_met G s pre post w hnn hprim hord hpre' hwd hwm
  refine ⟨pre, w, post, s', _, hord, hwd, hwm, hpre', hrel, hp, ?_, ?_, ?_⟩
  · by_cases hb : s._gestures.bound (toDirection s._x s._y) = true
    · simp [hb, List.count_cons, Ne.symm hwd]
    · simp [hb]
  · by_cases hb : s._gestures.bound (toDirection s._x s._y) = true
    · simp [hb, List.count_cons]
    · simp [hb]
  · intro e hed hew
    by_cases hb : s._gestures.bound (toDirection s._x s._y) = true
    · simp [hb, hed, hew]
    · simp [hb, hew]

/-- C6 on Scenario D: at `(20, 15)` the primary direction is `Right` (20 of 50, not met);
`Up` is scanned first and has not met, `Down` (15 of 10) is the winner. -/
theorem release_secondary_wins_witness :
    ∃ pre w post s' log, Direction.order = pre ++ w :: post ∧
      w ≠ toDirection scenarioD._x scenarioD._y ∧
      scenarioD._gestures.met ReleaseGesture.methods w = true ∧
      (∀ e ∈ pre, e ≠ toDirection scenarioD._x scenarioD._y →
        scenarioD._gestures.met ReleaseGesture.methods e = false) ∧
      scenarioD.release ReleaseGesture.methods = some (s', log) ∧ s'._pressed = false ∧
      log.count (w, Call.release true) = 1 ∧ log.count (w, Call.release false) = 0 ∧
      ∀ e, e ≠ toDirection scenarioD._x scenarioD._y → e ≠ w →
        (e, Call.release true) ∉ log :=
  release_secondary_wins ReleaseGesture.methods scenarioD (by decide) (by decide)
    ⟨Direction.Down, by decide, by decide⟩

/-- C7, as the claim states it, fails on Scenario D: `press`, `move(20, 15)`, `release`
over `lowDown`. At `(20, 15)` the primary direction is `Right`, whose gesture (20 of 50)
has not met its threshold, and `Down` (15 of 10) has; every direction is bound.
`release()` makes two calls only, `release(true)` on `Right` and `release(true)` on
`Down`: the gestures of `Up`, `Left`, `None` and `Right` receive no `release(false)`. -/
theorem release_losers_counterexample :
    (GestureAction.init lowDown).calls ReleaseGesture.methods
        [Input.press, Input.move 20 15, Input.release] =
      some [[(Direction.Up, Call.press false), (Direction.Down, Call.press false),
          (Direction.Left, Call.press false), (Direction.Right, Call.press false),
          (Direction.None, Call.press false)],
        [(Direction.Right, Call.move 20), (Direction.Down, Call.move 15)],
        [(Direction.Right, Call.release true), (Direction.Down, Call.release true)]] ∧
    ((GestureAction.init lowDown).run ReleaseGesture.methods
        [Input.press, Input.move 20 15]).map
      (fun r => (toDirection r.1._x r.1._y,
        r.1._gestures.met ReleaseGesture.methods Direction.Right,
        r.1._gestures.met ReleaseGesture.methods Direction.Down,
        decide (∀ e, r.1._gestures.bound e = true))) =
      some (Direction.Right, false, true, true) ∧
    ((GestureAction.init lowDown).calls ReleaseGesture.methods
        [Input.press, Input.move 20 15, Input.release]).map
      (fun logs => (logs.drop 2).map
        (fun log => [log.count (Direction.Up, Call.release false),
          log.count (Direction.Left, Call.release false),
          log.count (Direction.None, Call.release false),
          log.count (Direction.Right, Call.release false)])) = some [[0, 0, 0, 0]] := by
  decide

/-- C7, amended: release arbitration with a secondary winner. In every state without null
entries whose primary direction `d` does not meet its threshold and in which `w` is the
first other direction, in key order, whose gesture does, `release()` returns and makes
exactly one call on the gesture of `w`, `release(true)`; when `d` is bound its gesture
also receives exactly one call, `release(true)`; no other gesture is released with
`primary = true`, none receives a `press` or a `move`, and none receives more than one
`release`. -/
theorem release_secondary_calls {γ : Type} (G : Gesture γ) (s : GestureAction γ)
    (pre post : List Direction) (w : Direction) (hnn : s._gestures.NoNull)
    (hprim : s._gestures.met G (toDirection s._x s._y) = false)
    (hord : Direction.order = pre ++ w :: post)
    (hpre : ∀ e ∈ pre, e ≠ toDirection s._x s._y → s._gestures.met G e = false)
    (hwd : w ≠ toDirection s._x s._y) (hw : s._gestures.met G w = true) :
    ∃ s' log, s.release G = some (s', log) ∧ s'._pressed = false ∧
      log.count (w, Call.release true) = 1 ∧ log.count (w, Call.release false) = 0 ∧
      (s._gestures.bound (toDirection s._x s._y) = true →
        log.count (toDirection s._x s._y, Call.release true) = 1 ∧
        log.count (toDirection s._x s._y, Call.release false) = 0) ∧
      (∀ e, e ≠ toDirection s._x s._y → e ≠ w →
        log.count (e, Call.release true) = 0 ∧ log.count (e, Call.release false) ≤ 1) ∧
      (∀ e b, (e, Call.press b) ∉ log) ∧ (∀ e v, (e, Call.move v) ∉ log) := by
  obtain ⟨s', hrel, hp, _, _, _, _⟩ :=
    release_eq_of_secondary_met G s pre post w hnn hprim hord hpre hwd hw
  refine ⟨s', _, hrel, hp, ?_, ?_, ?_, ?_, ?_, ?_⟩
  · by_cases hb : s._gestures.bound (toDirection s._x s._y) = true
    · simp [hb, List.count_cons, Ne.symm hwd]
    · simp [hb]
  · by_cases hb : s._gestures.bound (toDirection s._x s._y) = true
    · simp [hb, List.count_cons]
    · simp [hb]
  · intro hb
    simp [hb, List.count_cons, hwd]
  · intro e hed hew
    by_cases hb : s._gestures.bound (toDirection s._x s._y) = true
    · simp [hb, List.count_cons, Ne.symm hed, Ne.symm hew]
    · simp [hb, List.count_cons, Ne.symm hew]
  · intro e b
    by_cases hb : s._gestures.bound (toDirection s._x s._y) = true
    · simp [hb]
    · simp [hb]
  · intro e v
    by_cases hb : s._gestures.bound (toDirection s._x s._y) = true
    · simp [hb]
    · simp [hb]

/-- C7 amended, on Scenario D: `Down` and the primary direction `Right` each receive one
`release(true)`. -/
theorem release_secondary_calls_witness :
    ∃ s' log, scenarioD.release ReleaseGesture.methods = some (s', log) ∧
      s'._pressed = false ∧
      log.count (Direction.Down, Call.release true) = 1 ∧
      log.count (Direction.Down, Call.release false) = 0 ∧
      (scenarioD._gestures.bound (toDirection scenarioD._x scenarioD._y) = true →
        log.count (toDirection scenarioD._x scenarioD._y, Call.release true) = 1 ∧
        log.count (toDirection scenarioD._x scenarioD._y, Call.release false) = 0) ∧
      (∀ e, e ≠ toDirection scenarioD._x scenarioD._y → e ≠ Direction.Down →
        log.count (e, Call.release true) = 0 ∧ log.count (e, Call.release false) ≤ 1) ∧
      (∀ e b, (e, Call.press b) ∉ log) ∧ (∀ e v, (e, Call.move v) ∉ log) :=
  release_secondary_calls ReleaseGesture.methods scenarioD [Direction.Up]
    [Direction.Left, Direction.Right, Direction.None] Direction.Down (by decide) (by decide)
    rfl (by decide) (by decide) (by decide)

/-- C8, as the claim states it, fails after `press`, `move(5, 5)` over five fresh
gestures of threshold 50: no gesture has met its threshold, yet `release()` releases the
directional gesture of `Right`, the primary direction of `(5, 5)`, with `primary = true`
before the click on `None`. -/
theorem release_no_threshold_counterexample :
    ((GestureAction.init allBound).run ReleaseGesture.methods
        [Input.press, Input.move 5 5]).map
      (fun r => (r.1._x, r.1._y,
        decide (∀ e, r.1._gestures.met ReleaseGesture.methods e = false))) =
      some (5, 5, true) ∧
    ((GestureAction.init allBound).calls ReleaseGesture.methods
        [Input.press, Input.move 5 5, Input.release]).map (fun logs => logs.drop 2) =
      some [[(Direction.Right, Call.release true), (Direction.None, Call.press false),
        (Direction.None, Call.release false)]] := by
  decide

/-- C8, amended: release arbitration when no threshold is met. In every state without null
entries in which no bound gesture reports `metThreshold`, `release()` returns and leaves
the state idle; no gesture of a direction other than the primary direction
`d = toDirection x y` is released with `primary = true`, while the gesture of `d`, when
bound, receives exactly one `release(true)`. If `None` is bound, its gesture receives
`press()` and then `release()` as the final two calls, and no call before them; if `None`
is not bound, no `press` is made. Scenario C: with a gesture on `None` only that stays
below its threshold, `press`, `move(5, 5)`, `release` make the calls `None.press`, then
none, then exactly `None.press`, `None.release`. -/
theorem release_no_threshold {γ : Type} (G : Gesture γ) :
    (∀ (s : GestureAction γ), s._gestures.NoNull → (∀ e, s._gestures.met G e = false) →
      ∃ s' log, s.release G = some (s', log) ∧ s'._pressed = false ∧
        (∀ e, e ≠ toDirection s._x s._y → (e, Call.release true) ∉ log) ∧
        (s._gestures.bound (toDirection s._x s._y) = true →
          log.count (toDirection s._x s._y, Call.release true) = 1) ∧
        (s._gestures.bound Direction.None = true →
          ∃ front, log = front ++
              [(Direction.None, Call.press false), (Direction.None, Call.release false)] ∧
            ∀ c, (Direction.None, c) ∉ front) ∧
        (s._gestures.bound Direction.None = false → ∀ e b, (e, Call.press b) ∉ log)) ∧
    (∀ (s : GestureAction γ) (g0 : γ),
      (∀ e, e ≠ Direction.None → s._gestures e = none) →
      s._gestures Direction.None = some (some g0) → G.metThreshold (G.press false g0) = false →
      ∃ s1 s3, s.press G = some (s1, [(Direction.None, Call.press false)]) ∧
        (s1.move G 5 5).2 = [] ∧
        (s1.move G 5 5).1.release G = some (s3,
          [(Direction.None, Call.press false), (Direction.None, Call.release false)])) := by
  constructor
  · intro s hnn hno
    obtain ⟨s', hrel, hp, _, _, _, _⟩ := release_eq_of_none_met G s hnn hno
    have hdN := toDirection_ne_None s._x s._y
    refine ⟨s', _, hrel, hp, ?_, ?_, ?_, ?_⟩
    · intro e hed
      by_cases hb : s._gestures.bound (toDirection s._x s._y) = true <;>
        by_cases hN : s._gestures.bound Direction.None = true <;> simp [hb, hN, hed]
    · intro hb
      by_cases hN : s._gestures.bound Direction.None = true <;>
        simp [hb, hN, List.count_cons, hdN]
    · intro hN
      refine ⟨_, by rw [if_pos hN], ?_⟩
      intro c
      by_cases hb : s._gestures.bound (toDirection s._x s._y) = true
      · simp [hb, Ne.symm hdN]
      · simp [hb]
    · intro hN e b
      by_cases hb : s._gestures.bound (toDirection s._x s._y) = true <;> simp [hb, hN]
  · intro s g0 hdir hNone hlow
    have hUp := hdir Direction.Up (by decide)
    have hDown := hdir Direction.Down (by decide)
    have hLeft := hdir Direction.Left (by decide)
    have hRight := hdir Direction.Right (by decide)
    have hpress : s.press G = some (GestureAction.mk true 0 0
        (Function.update s._gestures Direction.None (some (some (G.press false g0)))),
        [(Direction.None, Call.press false)]) := by
      simp [GestureAction.press, pressLoop, Direction.order, hUp, hDown, hLeft, hRight, hNone]
    have hmove : (GestureAction.mk true 0 0
        (Function.update s._gestures Direction.None (some (some (G.press false g0))))).move
          G 5 5 =
        (GestureAction.mk true 5 5
          (Function.update s._gestures Direction.None (some (some (G.press false g0)))),
          []) := by
      simp [GestureAction.move, moveX, moveY, deliver, Function.update_apply, hRight, hDown,
        toInt16]
    have hnn2 : GestureMap.NoNull
        (Function.update s._gestures Direction.None (some (some (G.press false g0)))) := by
      intro e
      cases e <;> simp [Function.update_apply, hUp, hDown, hLeft, hRight]
    have hno2 : ∀ e, GestureMap.met G
        (Function.update s._gestures Direction.None (some (some (G.press false g0)))) e =
          false := by
      intro e
      cases e <;>
        simp [GestureMap.met, Function.update_apply, hUp, hDown, hLeft, hRight, hlow]
    obtain ⟨s3, hrel, _⟩ := release_eq_of_none_met G (GestureAction.mk true 5 5
        (Function.update s._gestures Direction.None (some (some (G.press false g0)))))
        hnn2 hno2
    have hd : toDirection 5 5 = Direction.Right := by decide
    refine ⟨_, s3, hpress, by rw [hmove], ?_⟩
    rw [hmove, hrel]
    simp [hd, GestureMap.bound, Function.update_apply, hRight]

/-- C8 amended, on Scenario C over fresh gestures and on the idle state over five fresh
gestures, where `None` is clicked after the primary direction's `release(true)`. -/
theorem release_no_threshold_witness :
    (∃ s1 s3, (GestureAction.init onlyNone).press ReleaseGesture.methods =
        some (s1, [(Direction.None, Call.press false)]) ∧
      (s1.move ReleaseGesture.methods 5 5).2 = [] ∧
      (s1.move ReleaseGesture.methods 5 5).1.release ReleaseGesture.methods = some (s3,
        [(Direction.None, Call.press false), (Direction.None, Call.release false)])) ∧
    ∃ s' log, (GestureAction.init allBound).release ReleaseGesture.methods = some (s', log) ∧
      s'._pressed = false ∧
      (∀ e,
        e ≠ toDirection (GestureAction.init allBound)._x (GestureAction.init allBound)._y →
        (e, Call.release true) ∉ log) ∧
      ((GestureAction.init allBound)._gestures.bound
          (toDirection (GestureAction.init allBound)._x (GestureAction.init allBound)._y) =
            true →
        log.count (toDirection (GestureAction.init allBound)._x
          (GestureAction.init allBound)._y, Call.release true) = 1) ∧
      ((GestureAction.init allBound)._gestures.bound Direction.None = true →
        ∃ front, log = front ++
            [(Direction.None, Call.press false), (Direction.None, Call.release false)] ∧
          ∀ c, (Direction.None, c) ∉ front) ∧
      ((GestureAction.init allBound)._gestures.bound Direction.None = false →
        ∀ e b, (e, Call.press b) ∉ log) :=
  ⟨(release_no_threshold ReleaseGesture.methods).2 (GestureAction.init onlyNone)
      ReleaseGesture.fresh (by decide) (by decide) (by decide),
   (release_no_threshold ReleaseGesture.methods).1 (GestureAction.init allBound) (by decide)
      (by decide)⟩

/-! ## Theorems: the axis-crossing split of `move` -/

/-- C9, as the claim states it, fails on Scenario B: after `press`, `move(-10, 0)` the
call `move(20, 0)` delivers to the `Left` gesture the delta `-10`, not `+10`, before the
`Right` gesture receives `+10`. -/
theorem move_cross_left_delta_counterexample :
    (GestureAction.init allBound).calls ReleaseGesture.methods
        [Input.press, Input.move (-10) 0, Input.move 20 0] =
      some [[(Direction.Up, Call.press false), (Direction.Down, Call.press false),
          (Direction.Left, Call.press false), (Direction.Right, Call.press false),
          (Direction.None, Call.press false)],
        [(Direction.Left, Call.move 10)],
        [(Direction.Left, Call.move (-10)), (Direction.Right, Call.move 10)]] ∧
    ((GestureAction.init allBound).calls ReleaseGesture.methods
        [Input.press, Input.move (-10) 0, Input.move 20 0]).map (fun logs => logs.drop 2) ≠
      some [[(Direction.Left, Call.move 10), (Direction.Right, Call.move 10)]] := by
  decide

/-- C9, amended: the horizontal axis-crossing split. In every state with 16-bit
cumulative `x = a < 0` and the `Left` and `Right` gestures bound, for every 16-bit
increment `dx` with `a + dx > 0`, `move(dx, 0)` makes exactly two calls, in this order:
`move(a)` on the `Left` gesture (a negative delta, which takes the extent `-a` that
gesture accumulated back to zero) and then `move(a + dx)` on the `Right` gesture;
afterwards the cumulative `x` is `a + dx`. For `press`, `move(-10, 0)`, `move(20, 0)` the
`Left` gesture receives `+10` and then `-10`, and the `Right` gesture receives `+10`. -/
theorem move_cross_left_to_right {γ : Type} (G : Gesture γ) :
    (∀ (s : GestureAction γ) (gl gr : γ) (dx : Int), isInt16 s._x → isInt16 dx →
      s._x < 0 → 0 < s._x + dx →
      s._gestures Direction.Left = some (some gl) →
      s._gestures Direction.Right = some (some gr) →
      (s.move G dx 0).2 =
          [(Direction.Left, Call.move s._x), (Direction.Right, Call.move (s._x + dx))] ∧
        (s.move G dx 0).1._x = s._x + dx ∧
        (s.move G dx 0).1._gestures Direction.Left = some (some (G.move s._x gl)) ∧
        (s.move G dx 0).1._gestures Direction.Right = some (some (G.move (s._x + dx) gr))) ∧
    (∀ (s : GestureAction γ), s._gestures.NoNull → s._gestures.bound Direction.Left = true →
      s._gestures.bound Direction.Right = true →
      ∃ s1 l1, s.press G = some (s1, l1) ∧
        (s1.move G (-10) 0).2 = [(Direction.Left, Call.move 10)] ∧
        ((s1.move G (-10) 0).1.move G 20 0).2 =
          [(Direction.Left, Call.move (-10)), (Direction.Right, Call.move 10)] ∧
        ((s1.move G (-10) 0).1.move G 20 0).1._x = 10) := by
  have general : ∀ (s : GestureAction γ) (gl gr : γ) (dx : Int), isInt16 s._x → isInt16 dx →
      s._x < 0 → 0 < s._x + dx →
      s._gestures Direction.Left = some (some gl) →
      s._gestures Direction.Right = some (some gr) →
      (s.move G dx 0).2 =
          [(Direction.Left, Call.move s._x), (Direction.Right, Call.move (s._x + dx))] ∧
        (s.move G dx 0).1._x = s._x + dx ∧
        (s.move G dx 0).1._gestures Direction.Left = some (some (G.move s._x gl)) ∧
        (s.move G dx 0).1._gestures Direction.Right =
          some (some (G.move (s._x + dx) gr)) := by
    intro s gl gr dx hx hdx hneg hpos hl hr
    have h1 : toInt16 s._x = s._x := toInt16_of_isInt16 _ hx
    have h2 : toInt16 (s._x + dx) = s._x + dx := by
      apply toInt16_of_isInt16
      unfold isInt16 at *
      omega
    have hdx0 : dx ≠ 0 := by omega
    have hge : 0 ≤ s._x + dx := le_of_lt hpos
    have hne : s._x + dx ≠ 0 := ne_of_gt hpos
    have hcross : s._x < 0 ∧ s._x + dx ≥ 0 := ⟨hneg, hge⟩
    have hX : moveX G s._x dx (s._gestures, []) =
        (Function.update (Function.update s._gestures Direction.Left
            (some (some (G.move s._x gl)))) Direction.Right
            (some (some (G.move (s._x + dx) gr))),
          [(Direction.Left, Call.move s._x), (Direction.Right, Call.move (s._x + dx))]) := by
      unfold moveX
      simp only [gt_iff_lt, Int.natAbs_pos, ne_eq, hdx0, not_false_eq_true, if_true, hcross,
        and_self, hne]
      rw [deliver_bound G _ Direction.Left _ gl hl, h1]
      rw [deliver_bound G _ Direction.Right _ gr (by
        simp [Function.update_apply, hr]), h2]
      simp
    refine ⟨?_, ?_, ?_, ?_⟩
    · simp [GestureAction.move, hX, moveY]
    · simp [GestureAction.move, h2]
    · simp [GestureAction.move, hX, moveY, Function.update_apply]
    · simp [GestureAction.move, hX, moveY, Function.update_apply]
  refine ⟨general, ?_⟩
  intro s hnn hL hR
  obtain ⟨s1, hpress, _, hx, hy, hnn1, hb1⟩ := press_eq G s hnn
  obtain ⟨gl, hgl⟩ := (GestureMap.bound_iff _ _).mp ((hb1 Direction.Left).trans hL)
  obtain ⟨gr, hgr⟩ := (GestureMap.bound_iff _ _).mp ((hb1 Direction.Right).trans hR)
  have hmove1 : s1.move G (-10) 0 =
      (GestureAction.mk s1._pressed (-10) 0
        (Function.update s1._gestures Direction.Left (some (some (G.move 10 gl)))),
        [(Direction.Left, Call.move 10)]) := by
    simp [GestureAction.move, moveX, moveY, deliver, hx, hy, hgl, toInt16]
  obtain ⟨g1, g2, g3, _⟩ := general (GestureAction.mk s1._pressed (-10) 0
      (Function.update s1._gestures Direction.Left (some (some (G.move 10 gl)))))
      (G.move 10 gl) gr 20 (show isInt16 (-10) by decide) (by decide)
      (show (-10 : Int) < 0 by decide) (show (0 : Int) < -10 + 20 by decide)
      (by simp) (by simp [Function.update_apply, hgr])
  refine ⟨s1, _, hpress, by rw [hmove1], ?_, ?_⟩
  · rw [hmove1, g1]
    simp
  · rw [hmove1, g2]
    simp

/-- C9 amended, at the largest crossing from the left: from `a = -32766` the increment
`dx = 32767` delivers `-32766` to the `Left` gesture and `1` to the `Right` gesture; and
Scenario B from the idle state over five fresh gestures. -/
theorem move_cross_left_to_right_witness :
    (((GestureAction.mk true (-32766) 0 allBound).move ReleaseGesture.methods 32767 0).2 =
        [(Direction.Left, Call.move (GestureAction.mk true (-32766) 0 allBound)._x),
          (Direction.Right,
            Call.move ((GestureAction.mk true (-32766) 0 allBound)._x + 32767))] ∧
      ((GestureAction.mk true (-32766) 0 allBound).move ReleaseGesture.methods 32767 0).1._x =
        (GestureAction.mk true (-32766) 0 allBound)._x + 32767 ∧
      ((GestureAction.mk true (-32766) 0 allBound).move ReleaseGesture.methods
          32767 0).1._gestures Direction.Left =
        some (some (ReleaseGesture.methods.move
          (GestureAction.mk true (-32766) 0 allBound)._x ReleaseGesture.fresh)) ∧
      ((GestureAction.mk true (-32766) 0 allBound).move ReleaseGesture.methods
          32767 0).1._gestures Direction.Right =
        some (some (ReleaseGesture.methods.move
          ((GestureAction.mk true (-32766) 0 allBound)._x + 32767) ReleaseGesture.fresh))) ∧
    ∃ s1 l1, (GestureAction.init allBound).press ReleaseGesture.methods = some (s1, l1) ∧
      (s1.move ReleaseGesture.methods (-10) 0).2 = [(Direction.Left, Call.move 10)] ∧
      ((s1.move ReleaseGesture.methods (-10) 0).1.move ReleaseGesture.methods 20 0).2 =
        [(Direction.Left, Call.move (-10)), (Direction.Right, Call.move 10)] ∧
      ((s1.move ReleaseGesture.methods (-10) 0).1.move ReleaseGesture.methods 20 0).1._x = 10 :=
  ⟨(move_cross_left_to_right ReleaseGesture.methods).1
      (GestureAction.mk true (-32766) 0 allBound) ReleaseGesture.fresh ReleaseGesture.fresh
      32767 (by decide) (by decide) (by decide) (by decide) rfl rfl,
   (move_cross_left_to_right ReleaseGesture.methods).2 (GestureAction.init allBound)
      (by decide) (by decide) (by decide)⟩

/-- C10 at the failing input: over five fresh gestures, `press`, `move(0, 10)` delivers
`+10` to `Down` (the direction of `y > 0` for the classifier and for moves that do not
cross); then `move(0, -30)`, which takes `y` from `10` to `-20`, calls `Up` first, with
`+10`, and `Down` second, with `-20`. The portion up to zero does not go to `Down` and the
remainder does not go to `Up`: afterwards `Up` holds `10` and `Down` holds `-10` at
`y = -20`. The horizontal block does it the other way round: `move(10, 0)`, `move(-30, 0)`
delivers `-10` to `Right` and then `+20` to `Left`. -/
theorem move_cross_vertical_evaluation :
    (GestureAction.init allBound).calls ReleaseGesture.methods
        [Input.press, Input.move 0 10, Input.move 0 (-30)] =
      some [[(Direction.Up, Call.press false), (Direction.Down, Call.press false),
          (Direction.Left, Call.press false), (Direction.Right, Call.press false),
          (Direction.None, Call.press false)],
        [(Direction.Down, Call.move 10)],
        [(Direction.Up, Call.move 10), (Direction.Down, Call.move (-20))]] ∧
    ((GestureAction.init allBound).run ReleaseGesture.methods
        [Input.press, Input.move 0 10, Input.move 0 (-30)]).map
      (fun r => (r.1._y, toDirection r.1._x r.1._y)) = some ((-20 : Int), Direction.Up) ∧
    ((GestureAction.init allBound).run ReleaseGesture.methods
        [Input.press, Input.move 0 10, Input.move 0 (-30)]).map
      (fun r => (r.1._gestures Direction.Up, r.1._gestures Direction.Down)) =
      some (some (some (ReleaseGesture.mk 10 50)), some (some (ReleaseGesture.mk (-10) 50))) ∧
    ((GestureAction.init allBound).calls ReleaseGesture.methods
        [Input.press, Input.move 10 0, Input.move (-30) 0]).map (fun logs => logs.drop 1) =
      some [[(Direction.Right, Call.move 10)],
        [(Direction.Right, Call.move (-10)), (Direction.Left, Call.move 20)]] := by
  decide

/-! ## Lemmas: exact results of `press` and totality of `release` -/

section ExactLemmas

variable {γ : Type}

/-- The loop of `press()`, exactly: every object of a direction of the list is replaced by
the pressed object, and the bound directions of the list are pressed in order. -/
theorem pressLoop_exact (G : Gesture γ) :
    ∀ (l : List Direction) (m : GestureMap γ) (log : List Event), m.NoNull → l.Nodup →
      pressLoop G l m log = some
        (fun e => if e ∈ l then (m e).map (Option.map (G.press false)) else m e,
          log ++ (l.filter (fun e => m.bound e)).map (fun e => (e, Call.press false))) := by
  intro l
  induction l with
  | nil =>
    intro m log _ _
    simp [pressLoop]
  | cons a rest ih =>
    intro m log hnn hnd
    obtain ⟨ha, hrest⟩ := List.nodup_cons.mp hnd
    rcases hma : m a with _ | _ | g
    · have hb : m.bound a = false := by simp [GestureMap.bound, hma]
      simp only [pressLoop, hma]
      rw [ih m log hnn hrest]
      have hf : (fun e => if e ∈ rest then (m e).map (Option.map (G.press false)) else m e) =
          (fun e => if e ∈ a :: rest then (m e).map (Option.map (G.press false))
            else m e) := by
        funext e
        by_cases hea : e = a
        · subst hea
          simp [ha, hma]
        · simp [hea]
      rw [hf]
      simp [hb]
    · exact absurd hma (hnn a)
    · have hb : m.bound a = true := by simp [GestureMap.bound, hma]
      simp only [pressLoop, hma]
      rw [ih _ _ (GestureMap.NoNull_update m a _ hnn) hrest]
      have hf : (fun e => if e ∈ rest then
            (Function.update m a (some (some (G.press false g))) e).map
              (Option.map (G.press false))
            else Function.update m a (some (some (G.press false g))) e) =
          (fun e => if e ∈ a :: rest then (m e).map (Option.map (G.press false))
            else m e) := by
        funext e
        by_cases hea : e = a
        · subst hea
          simp [ha, hma]
        · simp [hea, Function.update_noteq hea]
      have hp : (fun e => GestureMap.bound
            (Function.update m a (some (some (G.press false g)))) e) =
          (fun e => m.bound e) := by
        funext e
        exact GestureMap.bound_update m a _ hb e
      rw [hf, hp]
      simp [hb]

/-- The method `press()`, exactly: the state is pressed at `(0, 0)`, every gesture object
is replaced by the pressed object, and the bound gestures are pressed in key order. -/
theorem press_exact (G : Gesture γ) (s : GestureAction γ) (hnn : s._gestures.NoNull) :
    s.press G = some
      (GestureAction.mk true 0 0
        (fun e => (s._gestures e).map (Option.map (G.press false))),
        (Direction.order.filter (fun e => s._gestures.bound e)).map
          (fun e => (e, Call.press false))) := by
  have h := pressLoop_exact G Direction.order s._gestures [] hnn Direction.nodup_order
  have hf : (fun e => if e ∈ Direction.order then
        (s._gestures e).map (Option.map (G.press false)) else s._gestures e) =
      (fun e => (s._gestures e).map (Option.map (G.press false))) := by
    funext e
    simp [Direction.mem_order]
  rw [hf] at h
  simp only [GestureAction.press, h]
  simp

/-- Without null entries `release()` returns: the state becomes idle, the offset and the
set of bound directions are kept, and the gesture of the primary direction, when bound,
receives `release(true)` exactly once. -/
theorem release_total (G : Gesture γ) (s : GestureAction γ) (hnn : s._gestures.NoNull) :
    ∃ s' log, s.release G = some (s', log) ∧ s'._pressed = false ∧ s'._x = s._x ∧
      s'._y = s._y ∧ s'._gestures.NoNull ∧
      (∀ e, s'._gestures.bound e = s._gestures.bound e) ∧
      (s._gestures.bound (toDirection s._x s._y) = true →
        log.count (toDirection s._x s._y, Call.release true) = 1) := by
  by_cases hmet : s._gestures.met G (toDirection s._x s._y) = true
  · obtain ⟨s', h, h1, h2, h3, h4, h5⟩ := release_eq_of_primary_met G s hnn hmet
    refine ⟨s', _, h, h1, h2, h3, h4, h5, ?_⟩
    intro _
    rw [List.count_cons_self, count_filter_map _ Direction.nodup_order]
    simp
  · have hprim : s._gestures.met G (toDirection s._x s._y) = false := by
      simpa using hmet
    by_cases hex : ∃ e, e ≠ toDirection s._x s._y ∧ s._gestures.met G e = true
    · obtain ⟨e0, he0, hm0⟩ := hex
      obtain ⟨pre, w, post, hord, hw, hpre⟩ :=
        exists_first (fun e => decide (e ≠ toDirection s._x s._y) && s._gestures.met G e)
          Direction.order ⟨e0, Direction.mem_order e0, by simp [he0, hm0]⟩
      have hwd : w ≠ toDirection s._x s._y := by
        intro h
        simp [h] at hw
      have hwm : s._gestures.met G w = true := by
        simpa [hwd] using hw
      have hpre' : ∀ e ∈ pre, e ≠ toDirection s._x s._y → s._gestures.met G e = false := by
        intro e he hed
        have := hpre e he
        simpa [hed] using this
      obtain ⟨s', h, h1, h2, h3, h4, h5⟩ :=
        release_eq_of_secondary_met G s pre post w hnn hprim hord hpre' hwd hwm
      refine ⟨s', _, h, h1, h2, h3, h4, h5, ?_⟩
      intro hb
      simp [hb, List.count_cons, hwd]
    · have hno : ∀ e, s._gestures.met G e = false := by
        intro e
        by_cases hed : e = toDirection s._x s._y
        · rw [hed]
          exact hprim
        · by_contra hne
          exact hex ⟨e, hed, by simpa using hne⟩
      obtain ⟨s', h, h1, h2, h3, h4, h5⟩ := release_eq_of_none_met G s hnn hno
      refine ⟨s', _, h, h1, h2, h3, h4, h5, ?_⟩
      intro hb
      have hdN := toDirection_ne_None s._x s._y
      by_cases hN : s._gestures.bound Direction.None = true <;>
        simp [hb, hN, List.count_cons, hdN]

/-- The printer returns a name for every direction. -/
theorem fromDirection_ok (d : Direction) : ∃ name, fromDirection d = Except.ok name := by
  cases d <;> exact ⟨_, rfl⟩

/-- The release of the old gesture in `setGesture` touches the entry of `d` only. -/
theorem releaseOld_other (G : Gesture γ) (s : GestureAction γ) (d e : Direction)
    (h : e ≠ d) : (releaseOld G s d).1 e = s._gestures e := by
  unfold releaseOld
  rcases hd : s._gestures d with _ | _ | g
  · rfl
  · rfl
  · by_cases hp : s._pressed = true
    · simp [hp, Function.update_noteq h]
    · simp [hp]

/-- The calls of the release of the old gesture: one `release` when the action is
pressed and `d` is bound, none otherwise. -/
theorem releaseOld_calls (G : Gesture γ) (s : GestureAction γ) (d : Direction) :
    (releaseOld G s d).2 =
      if s._pressed = true ∧ s._gestures.bound d = true then
        [(d, Call.release (decide (toDirection s._x s._y = d)))]
      else [] := by
  unfold releaseOld GestureMap.bound
  rcases hd : s._gestures d with _ | _ | g
  · simp
  · simp
  · by_cases hp : s._pressed = true
    · simp [hp]
    · simp [hp]

/-- Whatever the factory does, `setGesture` with a recognised direction name makes the
calls of the release of the old gesture and no other, and leaves the entries of the other
directions, the pressed flag and the offset as they were. -/
theorem setGesture_frame {κ : Type} (G : Gesture γ) (F : Factory γ κ) (s : GestureAction γ)
    (cfg : Option (ConfigCells κ)) (direction type : List Char) (d : Direction)
    (hd : toDirectionName direction = Except.ok d) :
    (s.setGesture G F cfg direction type).calls = (releaseOld G s d).2 ∧
      (∀ e, e ≠ d →
        (s.setGesture G F cfg direction type).state._gestures e = s._gestures e) ∧
      (s.setGesture G F cfg direction type).state._pressed = s._pressed ∧
      (s.setGesture G F cfg direction type).state._x = s._x ∧
      (s.setGesture G F cfg direction type).state._y = s._y := by
  obtain ⟨name, hname⟩ := fromDirection_ok d
  have hother : ∀ e, e ≠ d →
      Function.update (releaseOld G s d).1 d (some none) e = s._gestures e := by
    intro e he
    rw [Function.update_noteq he, releaseOld_other G s d e he]
  have hother2 : ∀ (g : γ) e, e ≠ d →
      Function.update (Function.update (releaseOld G s d).1 d (some none)) d
        (some (some g)) e = s._gestures e := by
    intro g e he
    rw [Function.update_noteq he, hother e he]
  rcases cfg with _ | c
  · simp only [GestureAction.setGesture, hd, hname]
    refine ⟨?_, hother, ?_, ?_, ?_⟩ <;> trivial
  · rcases hT : F.fromType type (c d) with f | ⟨g, k⟩
    · cases f
      · simp only [GestureAction.setGesture, hd, hname, hT]
        refine ⟨?_, hother, ?_, ?_, ?_⟩ <;> trivial
      · rcases hC : F.fromConfig (c d) with f2 | g2
        · simp only [GestureAction.setGesture, hd, hname, hT, hC]
          refine ⟨?_, hother, ?_, ?_, ?_⟩ <;> trivial
        · simp only [GestureAction.setGesture, hd, hname, hT, hC]
          refine ⟨?_, hother2 g2, ?_, ?_, ?_⟩ <;> trivial
      · simp only [GestureAction.setGesture, hd, hname, hT]
        refine ⟨?_, hother, ?_, ?_, ?_⟩ <;> trivial
    · simp only [GestureAction.setGesture, hd, hname, hT]
      refine ⟨?_, hother2 g, ?_, ?_, ?_⟩ <;> trivial

end ExactLemmas

/-! ## Theorems: `setGesture` -/

/-- C11: a failed reassignment rolls back. In every state in which `d` is bound, when the
factory rejects the type name `t` on the configuration entry of `d` with `InvalidGesture`
and builds a gesture from the configured type of that entry, `setGesture(name, t)` for a
name of `d` fails with `std::invalid_argument`; afterwards `d` is bound to the gesture
built from the configured type, the entry of every other direction, the pressed flag, the
offset and the configuration are unchanged. When the old gesture was one of the configured
type, that is when `press()` starts it from the same tracking state as the rebuilt one,
every later sequence of callbacks that begins with `press` makes the same calls and
reaches the same states as it would have without the failed call. -/
theorem setGesture_rollback {γ κ : Type} (G : Gesture γ) (F : Factory γ κ)
    (s : GestureAction γ) (c : ConfigCells κ) (direction t : List Char) (d : Direction)
    (g_old g_cfg : γ) (hd : toDirectionName direction = Except.ok d)
    (hb : s._gestures d = some (some g_old))
    (hbad : F.fromType t (c d) = Except.error Failure.InvalidGesture)
    (hcfg : F.fromConfig (c d) = Except.ok g_cfg) :
    (s.setGesture G F (some c) direction t).thrown = some Failure.invalid_argument ∧
    (s.setGesture G F (some c) direction t).state._gestures d = some (some g_cfg) ∧
    (∀ e, e ≠ d →
      (s.setGesture G F (some c) direction t).state._gestures e = s._gestures e) ∧
    (s.setGesture G F (some c) direction t).state._pressed = s._pressed ∧
    (s.setGesture G F (some c) direction t).state._x = s._x ∧
    (s.setGesture G F (some c) direction t).state._y = s._y ∧
    (s.setGesture G F (some c) direction t).config = some c ∧
    (s._gestures.NoNull → G.press false g_cfg = G.press false g_old →
      ∀ inputs, (s.setGesture G F (some c) direction t).state.run G (Input.press :: inputs) =
        s.run G (Input.press :: inputs)) := by
  obtain ⟨name, hname⟩ := fromDirection_ok d
  obtain ⟨_, hother, hp, hx, hy⟩ := setGesture_frame G F s (some c) direction t d hd
  have hthrown : (s.setGesture G F (some c) direction t).thrown =
      some Failure.invalid_argument := by
    simp only [GestureAction.setGesture, hd, hname, hbad, hcfg]
  have hbound : (s.setGesture G F (some c) direction t).state._gestures d =
      some (some g_cfg) := by
    simp only [GestureAction.setGesture, hd, hname, hbad, hcfg]
    simp
  have hconfig : (s.setGesture G F (some c) direction t).config = some c := by
    simp only [GestureAction.setGesture, hd, hname, hbad, hcfg]
  refine ⟨hthrown, hbound, hother, hp, hx, hy, hconfig, ?_⟩
  intro hnn hsame inputs
  have hnn2 : (s.setGesture G F (some c) direction t).state._gestures.NoNull := by
    intro e
    by_cases he : e = d
    · rw [he, hbound]
      simp
    · rw [hother e he]
      exact hnn e
  have hmap : (fun e => ((s.setGesture G F (some c) direction t).state._gestures e).map
        (Option.map (G.press false))) =
      (fun e => (s._gestures e).map (Option.map (G.press false))) := by
    funext e
    by_cases he : e = d
    · rw [he, hbound, hb]
      simp [hsame]
    · rw [hother e he]
  have hbd : (fun e => GestureMap.bound
        (s.setGesture G F (some c) direction t).state._gestures e) =
      (fun e => s._gestures.bound e) := by
    funext e
    by_cases he : e = d
    · rw [he]
      simp [GestureMap.bound, hbound, hb]
    · simp [GestureMap.bound, hother e he]
  have h1 := press_exact G (s.setGesture G F (some c) direction t).state hnn2
  have h2 := press_exact G s hnn
  rw [hmap, hbd] at h1
  simp only [GestureAction.run, GestureAction.step, h1, h2]

/-- C11 in the middle of a gesture over `sampleBindings`: `setGesture("UP", "bogus")` is
refused with `std::invalid_argument` and `Up` is bound to a fresh gesture of the
configured threshold 30; a following `press`, `move(0, -40)`, `release` makes the calls it
would have made without the refused call. -/
theorem setGesture_rollback_witness :
    (sampleMoved.setGesture ReleaseGesture.methods ReleaseGesture.factory (some sampleCells)
        ['U', 'P'] ['b', 'o', 'g', 'u', 's']).thrown = some Failure.invalid_argument ∧
    (sampleMoved.setGesture ReleaseGesture.methods ReleaseGesture.factory (some sampleCells)
        ['U', 'P'] ['b', 'o', 'g', 'u', 's']).state._gestures Direction.Up =
      some (some { _axis := 0, threshold := 30 }) ∧
    (sampleMoved.setGesture ReleaseGesture.methods ReleaseGesture.factory (some sampleCells)
        ['U', 'P'] ['b', 'o', 'g', 'u', 's']).state.run ReleaseGesture.methods
        [Input.press, Input.move 0 (-40), Input.release] =
      sampleMoved.run ReleaseGesture.methods
        [Input.press, Input.move 0 (-40), Input.release] :=
  ⟨(setGesture_rollback ReleaseGesture.methods ReleaseGesture.factory sampleMoved sampleCells
      ['U', 'P'] ['b', 'o', 'g', 'u', 's'] Direction.Up { _axis := 40, threshold := 30 }
      { _axis := 0, threshold := 30 } (by decide) (by decide) (by decide) (by decide)).1,
   (setGesture_rollback ReleaseGesture.methods ReleaseGesture.factory sampleMoved sampleCells
      ['U', 'P'] ['b', 'o', 'g', 'u', 's'] Direction.Up { _axis := 40, threshold := 30 }
      { _axis := 0, threshold := 30 } (by decide) (by decide) (by decide) (by decide)).2.1,
   (setGesture_rollback ReleaseGesture.methods ReleaseGesture.factory sampleMoved sampleCells
      ['U', 'P'] ['b', 'o', 'g', 'u', 's'] Direction.Up { _axis := 40, threshold := 30 }
      { _axis := 0, threshold := 30 } (by decide) (by decide) (by decide)
      (by decide)).2.2.2.2.2.2.2 (by decide) (by decide) _⟩

/-- C12: unknown direction names are rejected atomically. The parser succeeds exactly on
the strings whose ASCII lower-casing is `up`, `down`, `left`, `right` or `none`, and fails
with `std::invalid_argument` on every other string; for such a name `setGesture` fails with
`std::invalid_argument` for any type, makes no call on a gesture, and leaves the state
(pressed flag, offset, every binding) and the configuration unchanged. -/
theorem setGesture_unknown_direction {γ κ : Type} (G : Gesture γ) (F : Factory γ κ) :
    (∀ name : List Char, (∃ d, toDirectionName name = Except.ok d) ↔
      name.map Char.toLower ∈ [['u', 'p'], ['d', 'o', 'w', 'n'], ['l', 'e', 'f', 't'],
        ['r', 'i', 'g', 'h', 't'], ['n', 'o', 'n', 'e']]) ∧
    (∀ name : List Char,
      name.map Char.toLower ∉ [['u', 'p'], ['d', 'o', 'w', 'n'], ['l', 'e', 'f', 't'],
        ['r', 'i', 'g', 'h', 't'], ['n', 'o', 'n', 'e']] →
      toDirectionName name = Except.error Failure.invalid_argument ∧
      ∀ (s : GestureAction γ) (cfg : Option (ConfigCells κ)) (type : List Char),
        s.setGesture G F cfg name type =
          SetGestureResult.mk (some Failure.invalid_argument) s cfg []) := by
  constructor
  · intro name
    unfold toDirectionName
    simp only []
    split_ifs with h1 h2 h3 h4 h5 <;> simp [*]
  · intro name hname
    have hfail : toDirectionName name = Except.error Failure.invalid_argument := by
      unfold toDirectionName
      simp only []
      simp only [List.mem_cons, List.mem_singleton, List.not_mem_nil, or_false, not_or]
        at hname
      obtain ⟨h1, h2, h3, h4, h5⟩ := hname
      simp [h1, h2, h3, h4, h5]
    refine ⟨hfail, ?_⟩
    intro s cfg type
    simp only [GestureAction.setGesture, hfail]

/-- C12 on the name `dwn` in the middle of a gesture. -/
theorem setGesture_unknown_direction_witness :
    toDirectionName ['d', 'w', 'n'] = Except.error Failure.invalid_argument ∧
    ∀ (s : GestureAction ReleaseGesture) (cfg : Option (ConfigCells Int)) (type : List Char),
      s.setGesture ReleaseGesture.methods ReleaseGesture.factory cfg ['d', 'w', 'n'] type =
        SetGestureResult.mk (some Failure.invalid_argument) s cfg [] :=
  (setGesture_unknown_direction ReleaseGesture.methods ReleaseGesture.factory).2
    ['d', 'w', 'n'] (by decide)

/-- C13: reassignment releases the old gesture. For every state in which `d` is bound and
every name of `d`, whatever the type name and the configuration: when the state is pressed
`setGesture` makes exactly one call, `release` on the old gesture of `d`, with
`primary = true` exactly when `toDirection x y = d` (never for `d = None`); when the state
is idle it makes no call. In both cases the entry of every other direction is
unchanged. -/
theorem setGesture_releases_old {γ κ : Type} (G : Gesture γ) (F : Factory γ κ)
    (s : GestureAction γ) (cfg : Option (ConfigCells κ)) (direction type : List Char)
    (d : Direction) (g : γ) (hd : toDirectionName direction = Except.ok d)
    (hb : s._gestures d = some (some g)) :
    (s._pressed = true → (s.setGesture G F cfg direction type).calls =
      [(d, Call.release (decide (toDirection s._x s._y = d)))]) ∧
    (s._pressed = true → d = Direction.None →
      (s.setGesture G F cfg direction type).calls = [(d, Call.release false)]) ∧
    (s._pressed = false → (s.setGesture G F cfg direction type).calls = []) ∧
    (∀ e, e ≠ d →
      (s.setGesture G F cfg direction type).state._gestures e = s._gestures e) := by
  obtain ⟨hcalls, hother, _, _, _⟩ := setGesture_frame G F s cfg direction type d hd
  have hbd : s._gestures.bound d = true := (GestureMap.bound_iff _ _).mpr ⟨g, hb⟩
  rw [releaseOld_calls] at hcalls
  refine ⟨?_, ?_, ?_, hother⟩
  · intro hp
    rw [hcalls]
    simp [hp, hbd]
  · intro hp hN
    rw [hcalls]
    have hne : toDirection s._x s._y ≠ d := by
      rw [hN]
      exact toDirection_ne_None _ _
    simp [hp, hbd, hne]
  · intro hp
    rw [hcalls]
    simp [hp]

/-- C13 in the middle of an upward gesture over `sampleBindings` at `(0, -40)`: replacing
`up` releases the old gesture as primary, replacing `right` releases it as non-primary,
with a valid and with an unknown type name. -/
theorem setGesture_releases_old_witness :
    (sampleMoved.setGesture ReleaseGesture.methods ReleaseGesture.factory (some sampleCells)
        ['u', 'p'] ['O', 'n', 'R', 'e', 'l', 'e', 'a', 's', 'e']).calls =
      [(Direction.Up, Call.release (decide
        (toDirection sampleMoved._x sampleMoved._y = Direction.Up)))] ∧
    (sampleMoved.setGesture ReleaseGesture.methods ReleaseGesture.factory (some sampleCells)
        ['R', 'i', 'g', 'h', 't'] ['x']).calls =
      [(Direction.Right, Call.release (decide
        (toDirection sampleMoved._x sampleMoved._y = Direction.Right)))] :=
  ⟨(setGesture_releases_old ReleaseGesture.methods ReleaseGesture.factory sampleMoved
      (some sampleCells) ['u', 'p'] ['O', 'n', 'R', 'e', 'l', 'e', 'a', 's', 'e']
      Direction.Up { _axis := 40, threshold := 30 } (by decide) (by decide)).1 (by decide),
   (setGesture_releases_old ReleaseGesture.methods ReleaseGesture.factory sampleMoved
      (some sampleCells) ['R', 'i', 'g', 'h', 't'] ['x']
      Direction.Right { _axis := 0, threshold := 50 } (by decide) (by decide)).1
      (by decide)⟩

/-! ## Theorems: `release` twice, and `press` -/

/-- C14, as the claim states it, fails on Scenario A followed by a second `release`: over
five fresh gestures, `press`, `move(30, 0)`, `move(30, 0)`, `release`, `release`. The first
`release` releases `Right` as primary and the others as non-primary; the second one
releases `Right` with `primary = true` again and clicks `None`. -/
theorem release_twice_counterexample :
    ((GestureAction.init allBound).calls ReleaseGesture.methods
        [Input.press, Input.move 30 0, Input.move 30 0, Input.release, Input.release]).map
      (fun logs => logs.drop 3) =
      some [[(Direction.Right, Call.release true), (Direction.Up, Call.release false),
          (Direction.Down, Call.release false), (Direction.Left, Call.release false),
          (Direction.None, Call.release false)],
        [(Direction.Right, Call.release true), (Direction.None, Call.press false),
          (Direction.None, Call.release false)]] := by
  decide

/-- C14, amended: `release` twice in a row. In every state without null entries both
calls return and each leaves the state idle, with the offset and the set of bound
directions unchanged. The second `release()` is not a no-op: it repeats the arbitration
on the unchanged offset, so the gesture of the primary direction, when bound, receives
`release(true)` exactly once again, and when no gesture reports `metThreshold` after the
first call a gesture bound to `None` receives `press()` and `release()` as the final two
calls again. -/
theorem release_twice {γ : Type} (G : Gesture γ) (s : GestureAction γ)
    (hnn : s._gestures.NoNull) :
    ∃ s1 l1 s2 l2, s.release G = some (s1, l1) ∧ s1.release G = some (s2, l2) ∧
      s1._pressed = false ∧ s2._pressed = false ∧ s2._x = s._x ∧ s2._y = s._y ∧
      (∀ e, s2._gestures.bound e = s._gestures.bound e) ∧
      (s._gestures.bound (toDirection s._x s._y) = true →
        l2.count (toDirection s._x s._y, Call.release true) = 1) ∧
      ((∀ e, s1._gestures.met G e = false) → s._gestures.bound Direction.None = true →
        ∃ front, l2 = front ++
          [(Direction.None, Call.press false), (Direction.None, Call.release false)]) := by
  obtain ⟨s1, l1, h1, hp1, hx1, hy1, hnn1, hb1, _⟩ := release_total G s hnn
  obtain ⟨s2, l2, h2, hp2, hx2, hy2, _, hb2, hc2⟩ := release_total G s1 hnn1
  refine ⟨s1, l1, s2, l2, h1, h2, hp1, hp2, by rw [hx2, hx1], by rw [hy2, hy1], ?_, ?_, ?_⟩
  · intro e
    rw [hb2 e, hb1 e]
  · intro hb
    rw [hx1, hy1, hb1] at hc2
    exact hc2 hb
  · intro hno hN
    obtain ⟨s3, h3, _⟩ := release_eq_of_none_met G s1 hnn1 hno
    have heq := h2.symm.trans h3
    simp only [Option.some.injEq, Prod.mk.injEq] at heq
    refine ⟨if s1._gestures.bound (toDirection s1._x s1._y) = true
      then [(toDirection s1._x s1._y, Call.release true)] else [], ?_⟩
    rw [heq.2, if_pos ((hb1 Direction.None).trans hN)]

/-- C14 amended, on the state of Scenario A before its first `release`. -/
theorem release_twice_witness :
    ∃ s1 l1 s2 l2, scenarioA.release ReleaseGesture.methods = some (s1, l1) ∧
      s1.release ReleaseGesture.methods = some (s2, l2) ∧
      s1._pressed = false ∧ s2._pressed = false ∧ s2._x = scenarioA._x ∧
      s2._y = scenarioA._y ∧
      (∀ e, s2._gestures.bound e = scenarioA._gestures.bound e) ∧
      (scenarioA._gestures.bound (toDirection scenarioA._x scenarioA._y) = true →
        l2.count (toDirection scenarioA._x scenarioA._y, Call.release true) = 1) ∧
      ((∀ e, s1._gestures.met ReleaseGesture.methods e = false) →
        scenarioA._gestures.bound Direction.None = true →
        ∃ front, l2 = front ++
          [(Direction.None, Call.press false), (Direction.None, Call.release false)]) :=
  release_twice ReleaseGesture.methods scenarioA (by decide)

/-- C15: `press()` from any state without null entries, idle or pressed, returns a pressed
state with offset `(0, 0)`; every bound gesture, `None` included, receives `press()`
exactly once, no other call is made, and the set of bound directions is unchanged. -/
theorem press_calls {γ : Type} (G : Gesture γ) (s : GestureAction γ)
    (hnn : s._gestures.NoNull) :
    ∃ s1 log, s.press G = some (s1, log) ∧ s1._pressed = true ∧ s1._x = 0 ∧ s1._y = 0 ∧
      (∀ e, s._gestures.bound e = true → log.count (e, Call.press false) = 1) ∧
      (∀ e c, (e, c) ∈ log → c = Call.press false ∧ s._gestures.bound e = true) ∧
      (∀ e, s1._gestures.bound e = s._gestures.bound e) ∧ s1._gestures.NoNull := by
  obtain ⟨s1, h, hp, hx, hy, hnn1, hb⟩ := press_eq G s hnn
  refine ⟨s1, _, h, hp, hx, hy, ?_, ?_, hb, hnn1⟩
  · intro e he
    rw [count_filter_map _ Direction.nodup_order]
    simp [Direction.mem_order, he]
  · intro e c hmem
    simp only [List.mem_map, List.mem_filter, Prod.mk.injEq] at hmem
    obtain ⟨x, ⟨_, hx1⟩, hxe, hc⟩ := hmem
    subst hxe
    exact ⟨hc.symm, hx1⟩

/-- C15 on the pressed state of Scenario A and on the idle state over `sampleBindings`,
where three directions are bound. -/
theorem press_calls_witness :
    (∃ s1 log, scenarioA.press ReleaseGesture.methods = some (s1, log) ∧
      s1._pressed = true ∧ s1._x = 0 ∧ s1._y = 0 ∧
      (∀ e, scenarioA._gestures.bound e = true → log.count (e, Call.press false) = 1) ∧
      (∀ e c, (e, c) ∈ log → c = Call.press false ∧ scenarioA._gestures.bound e = true) ∧
      (∀ e, s1._gestures.bound e = scenarioA._gestures.bound e) ∧ s1._gestures.NoNull) ∧
    (GestureAction.init sampleBindings).calls ReleaseGesture.methods [Input.press] =
      some [[(Direction.Up, Call.press false), (Direction.Down, Call.press false),
        (Direction.Right, Call.press false)]] :=
  ⟨press_calls ReleaseGesture.methods scenarioA (by decide), by decide⟩

/-! ## Theorems: `spawn_task` -/

/-- C16, as the claim states it, fails for a unit of work that throws an object of a type
not derived from `std::exception`: the handler is not called, and the exception stays in
the future. -/
theorem spawn_task_counterexample :
    spawn_task (fun _ => Completion.returned) (Completion.raised (Raised.other 42)) =
      TaskRecord.mk [] (some (Raised.other 42)) none := by
  decide

/-- C16, amended: task failures are isolated. For every unit of work and every handler:
a failure derived from `std::exception` is caught at the task boundary and delivered to
the handler exactly once; a failure of any other type is not delivered to the handler
and remains in the future of the task; when the unit of work returns the handler is not
called and nothing is kept; in no case does a failure reach the caller of `spawn_task`. -/
theorem spawn_task_isolation (handler : Raised → Completion) :
    (∀ what, (spawn_task handler (Completion.raised (Raised.std_exception what))).handled =
      [Raised.std_exception what]) ∧
    (∀ tag, (spawn_task handler (Completion.raised (Raised.other tag))).handled = [] ∧
      (spawn_task handler (Completion.raised (Raised.other tag))).stored =
        some (Raised.other tag)) ∧
    (spawn_task handler Completion.returned).handled = [] ∧
    (spawn_task handler Completion.returned).stored = none ∧
    (∀ f, (spawn_task handler f).toCaller = none) := by
  refine ⟨?_, ?_, rfl, rfl, fun _ => rfl⟩
  · intro what
    rcases hh : handler (Raised.std_exception what) with _ | e <;>
      simp [spawn_task, taskBody, hh]
  · intro tag
    exact ⟨rfl, rfl⟩

/-! ## Theorems: the frame of `move` -/

section MoveLemmas

variable {γ : Type}

/-- A step that does nothing addresses no gesture. -/
theorem Addresses.same (S : List Direction) (n : Nat) (r : GestureMap γ × List Event) :
    Addresses S n r r :=
  ⟨[], by simp, by simp, by simp, fun _ => rfl, fun _ => rfl⟩

/-- Two steps in a row address the gestures that either of them addresses. -/
theorem Addresses.append (S : List Direction) (n k : Nat)
    (r r1 r2 : GestureMap γ × List Event) (h1 : Addresses S n r r1)
    (h2 : Addresses S k r1 r2) : Addresses S (n + k) r r2 := by
  obtain ⟨e1, hl1, hn1, hm1, hb1, hi1⟩ := h1
  obtain ⟨e2, hl2, hn2, hm2, hb2, hi2⟩ := h2
  refine ⟨e1 ++ e2, ?_, ?_, ?_, ?_, ?_⟩
  · rw [hl2, hl1, List.append_assoc]
  · rw [List.length_append]
    omega
  · intro ev hev
    rcases List.mem_append.mp hev with h | h
    · exact hm1 ev h
    · exact hm2 ev h
  · intro e
    rw [hb2 e, hb1 e]
  · intro hS
    have hr1 := hi1 hS
    rw [hi2 (by rw [hr1]; exact hS), hr1]

/-- A step that makes at most `n` calls makes at most `k` calls for every `k` above `n`. -/
theorem Addresses.atMost (S : List Direction) (n k : Nat) (hnk : n ≤ k)
    (r r1 : GestureMap γ × List Event) (h : Addresses S n r r1) : Addresses S k r r1 := by
  obtain ⟨e1, hl1, hn1, hm1, hb1, hi1⟩ := h
  exact ⟨e1, hl1, le_trans hn1 hnk, hm1, hb1, hi1⟩

/-- A step that addresses directions of `S` addresses directions of every larger list. -/
theorem Addresses.within (S T : List Direction) (hST : ∀ e ∈ S, e ∈ T) (n : Nat)
    (r r1 : GestureMap γ × List Event) (h : Addresses S n r r1) : Addresses T n r r1 := by
  obtain ⟨e1, hl1, hn1, hm1, hb1, hi1⟩ := h
  exact ⟨e1, hl1, hn1, fun ev hev => ⟨hST _ (hm1 ev hev).1, (hm1 ev hev).2⟩, hb1,
    fun hT => hi1 (fun e he => hT e (hST e he))⟩

/-- A delivery addresses its direction, with at most one `move`. -/
theorem addresses_deliver (G : Gesture γ) (S : List Direction) (d : Direction) (hd : d ∈ S)
    (v : Int) (r : GestureMap γ × List Event) : Addresses S 1 r (deliver G r d v) := by
  rcases hrd : r.1 d with _ | _ | g
  · have h : deliver G r d v = r := by simp [deliver, hrd]
    rw [h]
    exact Addresses.same S 1 r
  · have h : deliver G r d v = r := by simp [deliver, hrd]
    rw [h]
    exact Addresses.same S 1 r
  · have hb : r.1.bound d = true := by simp [GestureMap.bound, hrd]
    rw [deliver_bound G r d v g hrd]
    refine ⟨[(d, Call.move (toInt16 v))], rfl, by simp, ?_, ?_, ?_⟩
    · intro ev hev
      rw [List.mem_singleton.mp hev]
      exact ⟨hd, _, rfl⟩
    · intro e
      exact GestureMap.bound_update r.1 d _ hb e
    · intro hS
      rw [hS d hd] at hb
      exact absurd hb (by simp)

/-- The horizontal block of `move` addresses `Left` and `Right`, with at most two calls. -/
theorem moveX_addresses (G : Gesture γ) (_x x : Int) (r : GestureMap γ × List Event) :
    Addresses [Direction.Left, Direction.Right] 2 r (moveX G _x x r) := by
  have hL : Direction.Left ∈ [Direction.Left, Direction.Right] := by simp
  have hR : Direction.Right ∈ [Direction.Left, Direction.Right] := by simp
  unfold moveX
  simp only []
  split_ifs
  · exact Addresses.append _ 1 1 _ _ _ (addresses_deliver G _ _ hL _ _)
      (addresses_deliver G _ _ hR _ _)
  · exact Addresses.atMost _ 1 2 (by omega) _ _ (addresses_deliver G _ _ hL _ _)
  · exact Addresses.append _ 1 1 _ _ _ (addresses_deliver G _ _ hR _ _)
      (addresses_deliver G _ _ hL _ _)
  · exact Addresses.atMost _ 1 2 (by omega) _ _ (addresses_deliver G _ _ hR _ _)
  · exact Addresses.atMost _ 1 2 (by omega) _ _ (addresses_deliver G _ _ hL _ _)
  · exact Addresses.atMost _ 1 2 (by omega) _ _ (addresses_deliver G _ _ hR _ _)
  · exact Addresses.same _ 2 r
  · exact Addresses.same _ 2 r

/-- The vertical block of `move` addresses `Up` and `Down`, with at most two calls. -/
theorem moveY_addresses (G : Gesture γ) (_y y : Int) (r : GestureMap γ × List Event) :
    Addresses [Direction.Up, Direction.Down] 2 r (moveY G _y y r) := by
  have hU : Direction.Up ∈ [Direction.Up, Direction.Down] := by simp
  have hD : Direction.Down ∈ [Direction.Up, Direction.Down] := by simp
  unfold moveY
  simp only []
  split_ifs
  · exact Addresses.append _ 1 1 _ _ _ (addresses_deliver G _ _ hU _ _)
      (addresses_deliver G _ _ hD _ _)
  · exact Addresses.atMost _ 1 2 (by omega) _ _ (addresses_deliver G _ _ hU _ _)
  · exact Addresses.append _ 1 1 _ _ _ (addresses_deliver G _ _ hD _ _)
      (addresses_deliver G _ _ hU _ _)
  · exact Addresses.atMost _ 1 2 (by omega) _ _ (addresses_deliver G _ _ hD _ _)
  · exact Addresses.atMost _ 1 2 (by omega) _ _ (addresses_deliver G _ _ hU _ _)
  · exact Addresses.atMost _ 1 2 (by omega) _ _ (addresses_deliver G _ _ hD _ _)
  · exact Addresses.same _ 2 r
  · exact Addresses.same _ 2 r

/-- Without horizontal increment the horizontal block does nothing. -/
theorem moveX_zero (G : Gesture γ) (_x : Int) (r : GestureMap γ × List Event) :
    moveX G _x 0 r = r := by
  simp [moveX]

/-- Without vertical increment the vertical block does nothing. -/
theorem moveY_zero (G : Gesture γ) (_y : Int) (r : GestureMap γ × List Event) :
    moveY G _y 0 r = r := by
  simp [moveY]

/-- The two blocks of `move` together: at most four calls, all of them `move` calls on
`Left`, `Right`, `Up` or `Down`; the bound directions are kept. -/
theorem move_addresses (G : Gesture γ) (_x x _y y : Int) (r : GestureMap γ × List Event) :
    Addresses [Direction.Left, Direction.Right, Direction.Up, Direction.Down] 4 r
      (moveY G _y y (moveX G _x x r)) := by
  refine Addresses.append _ 2 2 r (moveX G _x x r) _ ?_ ?_
  · exact Addresses.within _ _ (by simp) 2 _ _ (moveX_addresses G _x x r)
  · exact Addresses.within _ _ (by simp) 2 _ _ (moveY_addresses G _y y _)

/-- An entry of a list with a head is the head or an entry of the tail. -/
theorem exists_entry_cons {κ : Type} (q : List Char × κ) (rest : List (List Char × κ))
    (P : List Char × κ → Prop) :
    (∃ p ∈ q :: rest, P p) ↔ (P q ∨ ∃ p ∈ rest, P p) := by
  constructor
  · rintro ⟨p, hp, h⟩
    rcases List.mem_cons.mp hp with hq | hp
    · subst hq
      exact Or.inl h
    · exact Or.inr ⟨p, hp, h⟩
  · rintro (h | ⟨p, hp, h⟩)
    · exact ⟨q, List.mem_cons_self _ _, h⟩
    · exact ⟨p, List.mem_cons_of_mem _ hp, h⟩

/-- The loop of the constructor from a map without null entries: it returns when the
factory builds every configured gesture, and binds exactly the directions that were bound
or are named by an entry. -/
theorem constructLoop_bindings {κ : Type} (F : Factory γ κ) :
    ∀ (entries : List (List Char × κ)) (m : GestureMap γ), m.NoNull →
      (∀ p ∈ entries, ∃ g, F.fromConfig p.2 = Except.ok g) →
      ∃ m1, constructLoop F entries m = Except.ok m1 ∧ m1.NoNull ∧
        ∀ d, m1.bound d = true ↔
          (m.bound d = true ∨ ∃ p ∈ entries, toDirectionName p.1 = Except.ok d) := by
  intro entries
  induction entries with
  | nil =>
    intro m hnn _
    refine ⟨m, rfl, hnn, ?_⟩
    intro d
    constructor
    · intro h
      exact Or.inl h
    · rintro (h | ⟨p, hp, _⟩)
      · exact h
      · exact absurd hp (List.not_mem_nil p)
  | cons p rest ih =>
    intro m hnn hvalid
    obtain ⟨name, k⟩ := p
    have hrest : ∀ q ∈ rest, ∃ g, F.fromConfig q.2 = Except.ok g :=
      fun q hq => hvalid q (List.mem_cons_of_mem _ hq)
    obtain ⟨g, hg⟩ := hvalid (name, k) (List.mem_cons_self _ _)
    rcases hname : toDirectionName name with f | direction
    · have hf : f = Failure.invalid_argument := by
        unfold toDirectionName at hname
        simp only [] at hname
        split_ifs at hname
        simp at hname
        exact hname.symm
      subst hf
      obtain ⟨m1, h1, h2, h3⟩ := ih m hnn hrest
      refine ⟨m1, ?_, h2, ?_⟩
      · simp only [constructLoop, hname, h1]
      · intro d
        rw [h3 d, exists_entry_cons]
        have hno : ¬ (toDirectionName name = Except.ok d) := by
          rw [hname]
          intro h
          cases h
        tauto
    · have hiff : ∀ d, toDirectionName name = Except.ok d ↔ direction = d := by
        intro d
        rw [hname]
        constructor
        · intro h
          cases h
          rfl
        · intro h
          rw [h]
      rcases hmd : m direction with _ | q
      · obtain ⟨m1, h1, h2, h3⟩ := ih (Function.update m direction (some (some g)))
          (GestureMap.NoNull_update m direction g hnn) hrest
        refine ⟨m1, ?_, h2, ?_⟩
        · simp only [constructLoop, hname, hg, hmd, h1]
        · intro d
          rw [h3 d, exists_entry_cons]
          show _ ↔ (m.bound d = true ∨ (toDirectionName name = Except.ok d ∨ _))
          rw [hiff d]
          by_cases hd : d = direction
          · subst hd
            have hb1 : GestureMap.bound (Function.update m d (some (some g))) d = true := by
              simp [GestureMap.bound]
            tauto
          · have hb1 : GestureMap.bound (Function.update m direction (some (some g))) d =
                m.bound d := by
              simp [GestureMap.bound, Function.update_noteq hd]
            have hne : ¬ direction = d := fun h => hd h.symm
            rw [hb1]
            tauto
      · have hbd : m.bound direction = true := by
          rcases q with _ | g1
          · exact absurd hmd (hnn direction)
          · simp [GestureMap.bound, hmd]
        obtain ⟨m1, h1, h2, h3⟩ := ih m hnn hrest
        refine ⟨m1, ?_, h2, ?_⟩
        · simp only [constructLoop, hname, hg, hmd, h1]
        · intro d
          rw [h3 d, exists_entry_cons]
          show _ ↔ (m.bound d = true ∨ (toDirectionName name = Except.ok d ∨ _))
          rw [hiff d]
          by_cases hd : d = direction
          · subst hd
            tauto
          · have hne : ¬ direction = d := fun h => hd h.symm
            tauto

end MoveLemmas

/-- C17: `move` addresses only the gestures of the axis that moved. For every state and
every increment `(dx, dy)`, `move(dx, dy)` makes only `move` calls, at most four of them
and none on the gesture of `None`; with `dy = 0` only `Left` and `Right` are addressed,
with `dx = 0` only `Up` and `Down`; the pressed flag and the set of bound directions are
unchanged; the sums `x + dx` and `y + dy` are stored in the 16-bit members, so the new
offset is `(x + dx, y + dy)` whenever these are 16-bit values; and when no gesture is bound
no call is made and the map is unchanged. -/
theorem move_frame {γ : Type} (G : Gesture γ) (s : GestureAction γ) (dx dy : Int) :
    (∀ ev ∈ (s.move G dx dy).2, ev.1 ≠ Direction.None ∧ ∃ v, ev.2 = Call.move v) ∧
    (s.move G dx dy).2.length ≤ 4 ∧
    (dy = 0 → ∀ ev ∈ (s.move G dx dy).2, ev.1 = Direction.Left ∨ ev.1 = Direction.Right) ∧
    (dx = 0 → ∀ ev ∈ (s.move G dx dy).2, ev.1 = Direction.Up ∨ ev.1 = Direction.Down) ∧
    (s.move G dx dy).1._pressed = s._pressed ∧
    (∀ e, (s.move G dx dy).1._gestures.bound e = s._gestures.bound e) ∧
    (s.move G dx dy).1._x = toInt16 (s._x + dx) ∧
    (s.move G dx dy).1._y = toInt16 (s._y + dy) ∧
    (isInt16 (s._x + dx) → (s.move G dx dy).1._x = s._x + dx) ∧
    (isInt16 (s._y + dy) → (s.move G dx dy).1._y = s._y + dy) ∧
    ((∀ e, s._gestures.bound e = false) →
      (s.move G dx dy).2 = [] ∧ (s.move G dx dy).1._gestures = s._gestures) := by
  obtain ⟨extra, hl, hn, hm, hb, hi⟩ := move_addresses G s._x dx s._y dy (s._gestures, [])
  have hlog : (s.move G dx dy).2 = extra := by
    simp only [GestureAction.move, hl]
    simp
  refine ⟨?_, ?_, ?_, ?_, rfl, ?_, rfl, rfl, ?_, ?_, ?_⟩
  · intro ev hev
    rw [hlog] at hev
    obtain ⟨h1, h2⟩ := hm ev hev
    refine ⟨?_, h2⟩
    intro hN
    rw [hN] at h1
    simp at h1
  · rw [hlog]
    exact hn
  · intro hdy ev hev
    subst hdy
    obtain ⟨ex, hlx, _, hmx, _, _⟩ := moveX_addresses G s._x dx (s._gestures, [])
    have : (s.move G dx 0).2 = ex := by
      simp only [GestureAction.move, moveY_zero, hlx]
      simp
    rw [this] at hev
    simpa using (hmx ev hev).1
  · intro hdx ev hev
    subst hdx
    obtain ⟨ex, hly, _, hmy, _, _⟩ := moveY_addresses G s._y dy (s._gestures, [])
    have : (s.move G 0 dy).2 = ex := by
      simp only [GestureAction.move, moveX_zero, hly]
      simp
    rw [this] at hev
    simpa using (hmy ev hev).1
  · intro e
    exact hb e
  · intro h
    exact toInt16_of_isInt16 _ h
  · intro h
    exact toInt16_of_isInt16 _ h
  · intro hno
    have := hi (fun e _ => hno e)
    constructor
    · simp only [GestureAction.move, this]
    · simp only [GestureAction.move, this]

/-- C17 on a diagonal move that crosses both axes over five fresh gestures: four calls,
none on `None`. -/
theorem move_frame_witness :
    ((GestureAction.mk true (-3) 4 allBound).move ReleaseGesture.methods 10 (-10)).2 =
      [(Direction.Left, Call.move (-3)), (Direction.Right, Call.move 7),
        (Direction.Up, Call.move 4), (Direction.Down, Call.move (-6))] ∧
    ((GestureAction.mk true (-3) 4 allBound).move ReleaseGesture.methods 10 (-10)).2.length
      ≤ 4 ∧
    (isInt16 ((GestureAction.mk true (-3) 4 allBound)._x + 10) →
      ((GestureAction.mk true (-3) 4 allBound).move ReleaseGesture.methods 10 (-10)).1._x =
        (GestureAction.mk true (-3) 4 allBound)._x + 10) :=
  ⟨by decide,
   (move_frame ReleaseGesture.methods (GestureAction.mk true (-3) 4 allBound) 10 (-10)).2.1,
   (move_frame ReleaseGesture.methods (GestureAction.mk true (-3) 4 allBound)
     10 (-10)).2.2.2.2.2.2.2.2.1⟩

/-- C18: construction skips bad direction names without failing. For every list of
configured entries for each of which the factory builds a gesture, the constructor
returns; the bound directions are exactly the directions named, in any letter case, by an
entry, and no entry is null. An entry whose name is not a direction binds nothing and
does not keep any other entry from being bound. -/
theorem construct_bindings {γ κ : Type} (F : Factory γ κ) (entries : ConfigEntries κ)
    (hvalid : ∀ p ∈ entries, ∃ g, F.fromConfig p.2 = Except.ok g) :
    ∃ m, GestureAction.construct F (some entries) = Except.ok m ∧ m.NoNull ∧
      ∀ d, m.bound d = true ↔ ∃ p ∈ entries, toDirectionName p.1 = Except.ok d := by
  have hempty : GestureMap.NoNull (fun _ : Direction => (none : Option (Option γ))) := by
    intro d h
    cases h
  obtain ⟨m, h1, h2, h3⟩ := constructLoop_bindings F entries (fun _ => none) hempty hvalid
  refine ⟨m, h1, h2, ?_⟩
  intro d
  rw [h3 d]
  have hb : GestureMap.bound (fun _ : Direction => (none : Option (Option γ))) d = false :=
    rfl
  rw [hb]
  constructor
  · rintro (h | h)
    · cases h
    · exact h
  · intro h
    exact Or.inr h

/-- C18 on `sampleConfig`, which has the entry `diag` and spells `Down` with a capital:
`Up`, `Down` and `Right` are bound. -/
theorem construct_bindings_witness :
    (∃ m, GestureAction.construct ReleaseGesture.factory (some sampleConfig) = Except.ok m ∧
      m.NoNull ∧
      ∀ d, m.bound d = true ↔ ∃ p ∈ sampleConfig, toDirectionName p.1 = Except.ok d) ∧
    (GestureAction.construct ReleaseGesture.factory (some sampleConfig)).toOption.map
        (fun m => Direction.order.map (fun d => m.bound d)) =
      some [true, true, false, true, false] :=
  ⟨construct_bindings ReleaseGesture.factory sampleConfig
      (fun p _ => ⟨{ _axis := 0, threshold := p.2 }, rfl⟩),
   by decide⟩

/-! ## Theorems: the horizontal extent -/

section ExtentLemmas

variable {γ : Type}

/-- The deltas delivered by two logs in a row add up. -/
theorem delivered_append (d : Direction) (l1 l2 : List Event) :
    delivered d (l1 ++ l2) = delivered d l1 + delivered d l2 := by
  induction l1 with
  | nil => simp [delivered]
  | cons ev rest ih =>
    obtain ⟨e, c⟩ := ev
    cases c with
    | press b => simpa [delivered] using ih
    | release b => simpa [delivered] using ih
    | move v =>
      show delivered d ((e, Call.move v) :: (rest ++ l2)) = _
      simp only [delivered]
      rw [ih]
      omega

/-- A log that does not address `d` delivers nothing to it. -/
theorem delivered_eq_zero (d : Direction) (l : List Event) (h : ∀ ev ∈ l, ev.1 ≠ d) :
    delivered d l = 0 := by
  induction l with
  | nil => rfl
  | cons ev rest ih =>
    obtain ⟨e, c⟩ := ev
    have hrest : ∀ ev ∈ rest, ev.1 ≠ d := fun ev hev => h ev (List.mem_cons_of_mem _ hev)
    have he : e ≠ d := h (e, c) (List.mem_cons_self _ _)
    cases c with
    | press b => simpa [delivered] using ih hrest
    | release b => simpa [delivered] using ih hrest
    | move v => simp [delivered, he, ih hrest]

/-- The horizontal block of `move` with `Left` and `Right` bound, for offsets whose
negations are 16-bit values: the deltas delivered to `Right` and to `Left` are the changes
of `max x 0` and of `max (-x) 0`. -/
theorem moveX_delivered (G : Gesture γ) (_x x : Int) (r : GestureMap γ × List Event)
    (gl gr : γ) (hl : r.1 Direction.Left = some (some gl))
    (hr : r.1 Direction.Right = some (some gr)) (hx : isInt16 x)
    (h0 : -32767 ≤ _x ∧ _x ≤ 32767) (h1 : -32767 ≤ _x + x ∧ _x + x ≤ 32767) :
    ∃ extra, (moveX G _x x r).2 = r.2 ++ extra ∧
      delivered Direction.Right extra = max (_x + x) 0 - max _x 0 ∧
      delivered Direction.Left extra = max (-(_x + x)) 0 - max (-_x) 0 := by
  unfold isInt16 at hx
  have hl1 : ∀ (g : γ) (log : List Event),
      (Function.update r.1 Direction.Right (some (some g)), log).1 Direction.Left =
        some (some gl) := by
    intro g log
    simp [Function.update_apply, hl]
  have hr1 : ∀ (g : γ) (log : List Event),
      (Function.update r.1 Direction.Left (some (some g)), log).1 Direction.Right =
        some (some gr) := by
    intro g log
    simp [Function.update_apply, hr]
  unfold moveX
  simp only []
  split_ifs with c1 c2 c3 c4 c5 c6 c7
  · rw [deliver_bound G r Direction.Left _ gl hl, deliver_bound G _ Direction.Right _ gr
      (hr1 _ _)]
    refine ⟨_, by rw [List.append_assoc], ?_, ?_⟩ <;>
      simp [delivered, toInt16] <;> omega
  · rw [deliver_bound G r Direction.Left _ gl hl]
    refine ⟨_, rfl, ?_, ?_⟩ <;> simp [delivered, toInt16] <;> omega
  · rw [deliver_bound G r Direction.Right _ gr hr, deliver_bound G _ Direction.Left _ gl
      (hl1 _ _)]
    refine ⟨_, by rw [List.append_assoc], ?_, ?_⟩ <;>
      simp [delivered, toInt16] <;> omega
  · rw [deliver_bound G r Direction.Right _ gr hr]
    refine ⟨_, rfl, ?_, ?_⟩ <;> simp [delivered, toInt16] <;> omega
  · rw [deliver_bound G r Direction.Left _ gl hl]
    refine ⟨_, rfl, ?_, ?_⟩ <;> simp [delivered, toInt16] <;> omega
  · rw [deliver_bound G r Direction.Right _ gr hr]
    refine ⟨_, rfl, ?_, ?_⟩ <;> simp [delivered, toInt16] <;> omega
  · refine ⟨[], by simp, ?_, ?_⟩ <;> simp [delivered] <;> omega
  · have hx0 : x = 0 := by
      simpa using c1
    refine ⟨[], by simp, ?_, ?_⟩ <;> simp [delivered, hx0]

/-- One `move` with `Left` and `Right` bound, for offsets whose negations are 16-bit
values: what is delivered to `Right` and `Left`, the new offset, and the bindings. -/
theorem move_delivered (G : Gesture γ) (s : GestureAction γ) (x y : Int)
    (hL : s._gestures.bound Direction.Left = true)
    (hR : s._gestures.bound Direction.Right = true) (hx : isInt16 x)
    (h0 : -32767 ≤ s._x ∧ s._x ≤ 32767) (h1 : -32767 ≤ s._x + x ∧ s._x + x ≤ 32767) :
    delivered Direction.Right (s.move G x y).2 = max (s._x + x) 0 - max s._x 0 ∧
    delivered Direction.Left (s.move G x y).2 = max (-(s._x + x)) 0 - max (-s._x) 0 ∧
    (s.move G x y).1._x = s._x + x ∧
    (s.move G x y).1._gestures.bound Direction.Left = true ∧
    (s.move G x y).1._gestures.bound Direction.Right = true := by
  obtain ⟨gl, hl⟩ := (GestureMap.bound_iff _ _).mp hL
  obtain ⟨gr, hr⟩ := (GestureMap.bound_iff _ _).mp hR
  obtain ⟨extra, he, hdR, hdL⟩ :=
    moveX_delivered G s._x x (s._gestures, []) gl gr hl hr hx h0 h1
  obtain ⟨ey, hy, _, hmy, _, _⟩ :=
    moveY_addresses G s._y y (moveX G s._x x (s._gestures, []))
  obtain ⟨_, _, _, _, hb, _⟩ := move_addresses G s._x x s._y y (s._gestures, [])
  have hlog : (s.move G x y).2 = extra ++ ey := by
    simp only [GestureAction.move, hy, he]
    simp
  have hyR : delivered Direction.Right ey = 0 := by
    apply delivered_eq_zero
    intro ev hev h
    have := (hmy ev hev).1
    rw [h] at this
    simp at this
  have hyL : delivered Direction.Left ey = 0 := by
    apply delivered_eq_zero
    intro ev hev h
    have := (hmy ev hev).1
    rw [h] at this
    simp at this
  refine ⟨?_, ?_, ?_, ?_, ?_⟩
  · rw [hlog, delivered_append, hdR, hyR]
    omega
  · rw [hlog, delivered_append, hdL, hyL]
    omega
  · show toInt16 (s._x + x) = s._x + x
    apply toInt16_of_isInt16
    unfold isInt16
    omega
  · exact (hb Direction.Left).trans hL
  · exact (hb Direction.Right).trans hR

/-- The cumulative offset of a sequence with a first increment. -/
theorem sumX_cons (p : Int × Int) (rest : List (Int × Int)) :
    sumX (p :: rest) = p.1 + sumX rest := by
  simp [sumX]

/-- A sequence of moves with `Left` and `Right` bound, all offsets on the way having
16-bit negations: what is delivered to `Right` and `Left` in total, and the final offset. -/
theorem moveAll_delivered (G : Gesture γ) :
    ∀ (moves : List (Int × Int)) (s : GestureAction γ),
      s._gestures.bound Direction.Left = true → s._gestures.bound Direction.Right = true →
      (∀ p ∈ moves, isInt16 p.1) →
      (∀ k, -32767 ≤ s._x + sumX (moves.take k) ∧ s._x + sumX (moves.take k) ≤ 32767) →
      delivered Direction.Right (s.moveAll G moves).2 =
          max (s._x + sumX moves) 0 - max s._x 0 ∧
        delivered Direction.Left (s.moveAll G moves).2 =
          max (-(s._x + sumX moves)) 0 - max (-s._x) 0 ∧
        (s.moveAll G moves).1._x = s._x + sumX moves := by
  intro moves
  induction moves with
  | nil =>
    intro s _ _ _ _
    simp [GestureAction.moveAll, delivered, sumX]
  | cons p rest ih =>
    intro s hL hR hinc hsum
    obtain ⟨x, y⟩ := p
    have h0 : -32767 ≤ s._x ∧ s._x ≤ 32767 := by
      have := hsum 0
      simpa [sumX] using this
    have h1 : -32767 ≤ s._x + x ∧ s._x + x ≤ 32767 := by
      have := hsum 1
      simpa [sumX] using this
    obtain ⟨m1, m2, m3, m4, m5⟩ :=
      move_delivered G s x y hL hR (hinc (x, y) (List.mem_cons_self _ _)) h0 h1
    have hsum2 : ∀ k, -32767 ≤ (s.move G x y).1._x + sumX (rest.take k) ∧
        (s.move G x y).1._x + sumX (rest.take k) ≤ 32767 := by
      intro k
      have := hsum (k + 1)
      rw [List.take_succ_cons, sumX_cons] at this
      rw [m3]
      constructor
      · have := this.1
        simp only [] at this
        omega
      · have := this.2
        simp only [] at this
        omega
    obtain ⟨i1, i2, i3⟩ := ih (s.move G x y).1 m4 m5
      (fun q hq => hinc q (List.mem_cons_of_mem _ hq)) hsum2
    rw [m3] at i1 i2 i3
    simp only [GestureAction.moveAll, delivered_append, sumX_cons]
    refine ⟨?_, ?_, ?_⟩
    · rw [m1, i1]
      omega
    · rw [m2, i2]
      omega
    · rw [i3]
      omega

end ExtentLemmas

/-- C19, as the claim states it, fails at the partial sum `-32768`: after `press`,
`move(-32768, 0)` the cumulative `x` is `-32768`, a 16-bit value, and the `Left` gesture
has received the single delta `-32768` (the `int` value `32768` of `-x` converted to
`int16_t`), not `max(-X, 0) = 32768`; its delivered total is negative. -/
theorem horizontal_extent_counterexample :
    ((GestureAction.init allBound).press ReleaseGesture.methods).map
      (fun r => ((r.1.moveAll ReleaseGesture.methods [(-32768, 0)]).2,
        delivered Direction.Left (r.1.moveAll ReleaseGesture.methods [(-32768, 0)]).2,
        (r.1.moveAll ReleaseGesture.methods [(-32768, 0)]).1._x)) =
      some ([(Direction.Left, Call.move (-32768))], (-32768 : Int), (-32768 : Int)) := by
  decide

/-- C19, amended: the horizontal extent invariant. For every state without null entries
with `Left` and `Right` bound and every sequence of moves with 16-bit `dx` whose partial
sums all lie in `-32767 .. 32767`, `press()` returns, and after each move (after the first
`k` moves, for every `k`) the deltas delivered to `Right` since the press add up to
`max X 0` and those delivered to `Left` to `max (-X) 0`, where `X` is the cumulative `x`,
the sum of the `dx` so far. Neither total is negative and at most one is non-zero. -/
theorem horizontal_extent {γ : Type} (G : Gesture γ) (s : GestureAction γ)
    (moves : List (Int × Int)) (hnn : s._gestures.NoNull)
    (hL : s._gestures.bound Direction.Left = true)
    (hR : s._gestures.bound Direction.Right = true)
    (hinc : ∀ p ∈ moves, isInt16 p.1)
    (hsum : ∀ k, -32767 ≤ sumX (moves.take k) ∧ sumX (moves.take k) ≤ 32767) :
    ∃ s1 l1, s.press G = some (s1, l1) ∧ ∀ k,
      delivered Direction.Right (s1.moveAll G (moves.take k)).2 =
        max (sumX (moves.take k)) 0 ∧
      delivered Direction.Left (s1.moveAll G (moves.take k)).2 =
        max (-(sumX (moves.take k))) 0 ∧
      (s1.moveAll G (moves.take k)).1._x = sumX (moves.take k) ∧
      0 ≤ delivered Direction.Right (s1.moveAll G (moves.take k)).2 ∧
      0 ≤ delivered Direction.Left (s1.moveAll G (moves.take k)).2 ∧
      (delivered Direction.Right (s1.moveAll G (moves.take k)).2 = 0 ∨
        delivered Direction.Left (s1.moveAll G (moves.take k)).2 = 0) := by
  obtain ⟨s1, hpress, _, hx, _, _, hb⟩ := press_eq G s hnn
  refine ⟨s1, _, hpress, ?_⟩
  intro k
  have hsum2 : ∀ j, -32767 ≤ s1._x + sumX ((moves.take k).take j) ∧
      s1._x + sumX ((moves.take k).take j) ≤ 32767 := by
    intro j
    rw [hx, List.take_take]
    have := hsum (min j k)
    constructor
    · omega
    · omega
  obtain ⟨i1, i2, i3⟩ := moveAll_delivered G (moves.take k) s1
    ((hb Direction.Left).trans hL) ((hb Direction.Right).trans hR)
    (fun p hp => hinc p (List.mem_of_mem_take hp)) hsum2
  rw [hx] at i1 i2 i3
  have e1 : delivered Direction.Right (s1.moveAll G (moves.take k)).2 =
      max (sumX (moves.take k)) 0 := by
    rw [i1]
    omega
  have e2 : delivered Direction.Left (s1.moveAll G (moves.take k)).2 =
      max (-(sumX (moves.take k))) 0 := by
    rw [i2]
    omega
  refine ⟨e1, e2, by rw [i3]; omega, ?_, ?_, ?_⟩
  · rw [e1]
    omega
  · rw [e2]
    omega
  · rw [e1, e2]
    omega

/-- C19 amended, on a sequence that crosses the origin twice and reaches `-32767`: the
totals after all four moves. -/
theorem horizontal_extent_witness :
    ∃ s1 l1, (GestureAction.init allBound).press ReleaseGesture.methods = some (s1, l1) ∧
      ∀ k,
      delivered Direction.Right (s1.moveAll ReleaseGesture.methods
          (List.take k [(-10, 0), (30, 4), (-32767, -3), (-20, 0)])).2 =
        max (sumX (List.take k [(-10, 0), (30, 4), (-32767, -3), (-20, 0)])) 0 ∧
      delivered Direction.Left (s1.moveAll ReleaseGesture.methods
          (List.take k [(-10, 0), (30, 4), (-32767, -3), (-20, 0)])).2 =
        max (-(sumX (List.take k [(-10, 0), (30, 4), (-32767, -3), (-20, 0)]))) 0 ∧
      (s1.moveAll ReleaseGesture.methods
          (List.take k [(-10, 0), (30, 4), (-32767, -3), (-20, 0)])).1._x =
        sumX (List.take k [(-10, 0), (30, 4), (-32767, -3), (-20, 0)]) ∧
      0 ≤ delivered Direction.Right (s1.moveAll ReleaseGesture.methods
          (List.take k [(-10, 0), (30, 4), (-32767, -3), (-20, 0)])).2 ∧
      0 ≤ delivered Direction.Left (s1.moveAll ReleaseGesture.methods
          (List.take k [(-10, 0), (30, 4), (-32767, -3), (-20, 0)])).2 ∧
      (delivered Direction.Right (s1.moveAll ReleaseGesture.methods
          (List.take k [(-10, 0), (30, 4), (-32767, -3), (-20, 0)])).2 = 0 ∨
        delivered Direction.Left (s1.moveAll ReleaseGesture.methods
          (List.take k [(-10, 0), (30, 4), (-32767, -3), (-20, 0)])).2 = 0) :=
  horizontal_extent ReleaseGesture.methods (GestureAction.init allBound)
    [(-10, 0), (30, 4), (-32767, -3), (-20, 0)] (by decide) (by decide) (by decide)
    (by decide) (by
      intro k
      rcases k with _ | _ | _ | _ | _ | k <;> simp [sumX])

/-! ## Theorems: quarter turns -/

/-- A quarter turn of a point other than the origin turns its direction clockwise. -/
theorem toDirection_turn (x y : Int) (h : ¬ (x = 0 ∧ y = 0)) :
    toDirection (-y) x = (toDirection x y).next := by
  unfold toDirection
  split_ifs <;>
    first
      | rfl
      | omega

/-- The quarter turn maps the grid points of a direction to grid points of its clockwise
successor, one to one. -/
theorem sector_card_le (n : Nat) (d : Direction) :
    (sector n d).card ≤ (sector n d.next).card := by
  apply Finset.card_le_card_of_injOn (fun p : Int × Int => (-p.2, p.1))
  · intro p hp
    simp only [sector, grid, Finset.mem_filter, Finset.mem_erase, Finset.mem_product,
      Finset.mem_Icc, ne_eq] at hp ⊢
    obtain ⟨⟨hne, ⟨hx1, hx2⟩, ⟨hy1, hy2⟩⟩, hd⟩ := hp
    have hne2 : ¬ (p.1 = 0 ∧ p.2 = 0) := by
      rintro ⟨h1, h2⟩
      exact hne (Prod.ext h1 h2)
    refine ⟨⟨?_, ⟨by omega, by omega⟩, ⟨hx1, hx2⟩⟩, ?_⟩
    · intro h
      have h1 := congrArg Prod.fst h
      have h2 := congrArg Prod.snd h
      simp only [] at h1 h2
      exact hne2 ⟨h2, by omega⟩
    · rw [toDirection_turn p.1 p.2 hne2, hd]
  · intro p _ q _ h
    have h1 := congrArg Prod.fst h
    have h2 := congrArg Prod.snd h
    simp only [] at h1 h2
    exact Prod.ext h2 (by omega)

/-- The grid is the union of the four sectors, which are disjoint. -/
theorem grid_card_sectors (n : Nat) :
    (grid n).card = (sector n Direction.Right).card + (sector n Direction.Down).card +
      (sector n Direction.Left).card + (sector n Direction.Up).card := by
  have h := Finset.card_eq_sum_card_fiberwise (f := fun p : Int × Int => toDirection p.1 p.2)
    (s := grid n)
    (t := ({Direction.Right, Direction.Down, Direction.Left, Direction.Up} :
      Finset Direction))
    (by
      intro p _
      have hne := toDirection_ne_None p.1 p.2
      rcases hd : toDirection p.1 p.2 with _ | _ | _ | _ | _
      · simp [hd]
      · simp [hd]
      · simp [hd]
      · simp [hd]
      · exact absurd hd hne)
  rw [h]
  simp only [sector]
  rw [Finset.sum_insert (by decide), Finset.sum_insert (by decide),
    Finset.sum_insert (by decide), Finset.sum_singleton]
  omega

/-- The number of grid points other than the origin. -/
theorem grid_card (n : Nat) : (grid n).card = 4 * (n * (n + 1)) := by
  have hmem : ((0 : Int), (0 : Int)) ∈
      (Finset.Icc (-(n : Int)) n) ×ˢ (Finset.Icc (-(n : Int)) n) := by
    simp only [Finset.mem_product, Finset.mem_Icc]
    omega
  have hc : (Finset.Icc (-(n : Int)) n).card = 2 * n + 1 := by
    rw [Int.card_Icc]
    omega
  unfold grid
  rw [Finset.card_erase_of_mem hmem, Finset.card_product, hc]
  have : (2 * n + 1) * (2 * n + 1) = 4 * (n * (n + 1)) + 1 := by ring
  omega

/-- C20: the classifier is equivariant under quarter turns. For all 16-bit `(x, y)` other
than the origin whose negations are 16-bit values, `toDirection (-y) x` is the clockwise
successor of `toDirection x y` in the cycle `Right`, `Down`, `Left`, `Up`. Hence on every
grid `[-n, n] x [-n, n]` of 16-bit points each of the four directions is returned on
exactly a quarter of the points other than the origin, that is on `n (n + 1)` points; the
origin is classified `Right`. -/
theorem toDirection_quarter_turns :
    (∀ x y : Int, isInt16 x → isInt16 y → isInt16 (-x) → isInt16 (-y) →
      ¬ (x = 0 ∧ y = 0) → toDirection (-y) x = (toDirection x y).next) ∧
    (∀ n : Nat, n ≤ 32767 → ∀ d, d ≠ Direction.None →
      4 * (sector n d).card = (grid n).card ∧ (sector n d).card = n * (n + 1)) ∧
    toDirection 0 0 = Direction.Right := by
  refine ⟨fun x y _ _ _ _ h => toDirection_turn x y h, ?_, by decide⟩
  intro n _ d hd
  have h1 := sector_card_le n Direction.Right
  have h2 := sector_card_le n Direction.Down
  have h3 := sector_card_le n Direction.Left
  have h4 := sector_card_le n Direction.Up
  simp only [Direction.next] at h1 h2 h3 h4
  have hs := grid_card_sectors n
  have hg := grid_card n
  cases d with
  | None => exact absurd rfl hd
  | Up => constructor <;> omega
  | Down => constructor <;> omega
  | Left => constructor <;> omega
  | Right => constructor <;> omega

/-- C20 at the corners of the symmetric 16-bit square and on the grid for `n = 2`, whose
24 points other than the origin fall into four sectors of 6. -/
theorem toDirection_quarter_turns_witness :
    toDirection (-(-32767)) 32767 = (toDirection 32767 (-32767)).next ∧
    toDirection (-32767) 32767 = (toDirection 32767 32767).next ∧
    (4 * (sector 2 Direction.Up).card = (grid 2).card ∧
      (sector 2 Direction.Up).card = 2 * (2 + 1)) :=
  ⟨toDirection_quarter_turns.1 32767 (-32767) (by decide) (by decide) (by decide)
      (by decide) (by decide),
   toDirection_quarter_turns.1 32767 32767 (by decide) (by decide) (by decide)
      (by decide) (by decide),
   toDirection_quarter_turns.2.1 2 (by decide) Direction.Up (by decide)⟩

end actions
end logid
